import Mathlib

/-!
Verification of the transcript parsing and schema-coverage engine of
tenx-hooks.

The development shallowly embeds the two copies of the transcript model
found in the repository:

* `ClaudeTranscript` — the `claude-transcript` crate
  (`crates/claude-transcript/src/lib.rs` and `src/parse.rs`), whose entry
  structs carry version-tolerant optional fields;
* `TenxHooks` — the copy in `crates/tenx-hooks/src/transcript.rs`, which
  additionally implements `TranscriptEntry::description`.

Rust data is translated as follows: structs become structures, enums become
inductives, `Option<T>` becomes `Option`, `Vec<T>` becomes `List`,
`serde_json::Value` becomes the `Json` type below, `u64` becomes `Nat` with
an explicit range check at the decoding boundary, and fallible operations
return `Except String`.  The serde-derived `Deserialize`/`Serialize`
implementations are embedded as explicit decoding/encoding functions that
follow the serde attributes written in the source (`tag`, `rename_all`,
`rename`, `untagged`, `skip_serializing_if`): a struct field typed
`Option<T>` decodes to `none` when the key is absent or `null`; unknown
keys are ignored; an internally tagged enum dispatches on its tag key and
fails on an unrecognized or missing tag.

The JSON wire layer (`serde_json::from_str`) is external library code; it
is embedded as a standard recursive-descent JSON text parser over the
character list of the line, with one simplification: number literals are
restricted to (optionally signed) integers, which covers every numeric
field of the transcript schema (token counts); a fractional or exponent
part is a parse failure.  Objects are modeled as association lists in
source order.
-/

/-- A JSON value: the six shapes of RFC 8259, with integer numerals.
Objects keep their fields as an association list in source order. -/
inductive Json where
  | null : Json
  | bool (b : Bool) : Json
  | num (n : Int) : Json
  | str (s : String) : Json
  | arr (elems : List Json) : Json
  | obj (fields : List (String × Json)) : Json

mutual

def Json.decEqAux (a b : Json) : Decidable (a = b) := by
  cases a <;> cases b <;>
    try { apply isFalse ; intro h ; injection h }
  case null.null => exact isTrue rfl
  case bool.bool x y =>
    exact match decEq x y with
    | isTrue h => isTrue (by rw [h])
    | isFalse h => isFalse (by intro h2; injection h2; contradiction)
  case num.num x y =>
    exact match decEq x y with
    | isTrue h => isTrue (by rw [h])
    | isFalse h => isFalse (by intro h2; injection h2; contradiction)
  case str.str x y =>
    exact match decEq x y with
    | isTrue h => isTrue (by rw [h])
    | isFalse h => isFalse (by intro h2; injection h2; contradiction)
  case arr.arr xs ys =>
    exact match Json.decEqList xs ys with
    | isTrue h => isTrue (by rw [h])
    | isFalse h => isFalse (by intro h2; injection h2; contradiction)
  case obj.obj fs gs =>
    exact match Json.decEqFields fs gs with
    | isTrue h => isTrue (by rw [h])
    | isFalse h => isFalse (by intro h2; injection h2; contradiction)

def Json.decEqList (xs ys : List Json) : Decidable (xs = ys) :=
  match xs, ys with
  | [], [] => isTrue rfl
  | _ :: _, [] | [], _ :: _ => isFalse (by intro h; injection h)
  | x :: xs, y :: ys =>
    match Json.decEqAux x y, Json.decEqList xs ys with
    | isTrue h1, isTrue h2 => isTrue (by rw [h1, h2])
    | isFalse h1, _ => isFalse (by intro h; injection h; contradiction)
    | _, isFalse h2 => isFalse (by intro h; injection h; contradiction)

def Json.decEqFields (fs gs : List (String × Json)) : Decidable (fs = gs) :=
  match fs, gs with
  | [], [] => isTrue rfl
  | _ :: _, [] | [], _ :: _ => isFalse (by intro h; injection h)
  | (k1, v1) :: fs, (k2, v2) :: gs =>
    match decEq k1 k2, Json.decEqAux v1 v2, Json.decEqFields fs gs with
    | isTrue h1, isTrue h2, isTrue h3 => isTrue (by rw [h1, h2, h3])
    | isFalse h1, _, _ =>
      isFalse (by intro h; injection h with hp ht; injection hp; contradiction)
    | _, isFalse h2, _ =>
      isFalse (by intro h; injection h with hp ht; injection hp; contradiction)
    | _, _, isFalse h3 => isFalse (by intro h; injection h; contradiction)

end

instance : DecidableEq Json := Json.decEqAux

/-- First occurrence of key `k` in an association list (serde reads a
struct field from the first time its key appears in the map). -/
def jLookup (fs : List (String × Json)) (k : String) : Option Json :=
  match fs with
  | [] => none
  | (k2, v) :: rest => if k2 = k then some v else jLookup rest k

/-- JSON insignificant whitespace (RFC 8259: space, tab, line feed,
carriage return). -/
def jsonWs (c : Char) : Bool :=
  c = ' ' || c = '\t' || c = '\n' || c = '\r'

/-- Drop leading JSON whitespace. -/
def skipWs : List Char → List Char
  | [] => []
  | c :: rest => if jsonWs c then skipWs rest else c :: rest

/-- The `{` character, and `}` below. -/
def lbraceChar : Char := Char.ofNat 123

def rbraceChar : Char := Char.ofNat 125

/-- Value of a hexadecimal digit, if any. -/
def hexVal (c : Char) : Option Nat :=
  if '0' ≤ c ∧ c ≤ '9' then some (c.toNat - '0'.toNat)
  else if 'a' ≤ c ∧ c ≤ 'f' then some (c.toNat - 'a'.toNat + 10)
  else if 'A' ≤ c ∧ c ≤ 'F' then some (c.toNat - 'A'.toNat + 10)
  else none

/-- Read the body of a JSON string literal after the opening quote,
accumulating decoded characters in reverse.  Handles the standard
escapes; a `\uXXXX` escape decodes to the code point it names
(surrogate pairing is not modeled — no claim depends on it). -/
def parseStrBody (acc : List Char) : List Char → Except String (String × List Char)
  | [] => .error "unexpected end of input in string"
  | c :: rest =>
    if c = '"' then .ok (String.mk acc.reverse, rest)
    else if c = '\\' then
      match rest with
      | [] => .error "unexpected end of input in string escape"
      | e :: rest2 =>
        if e = '"' then parseStrBody ('"' :: acc) rest2
        else if e = '\\' then parseStrBody ('\\' :: acc) rest2
        else if e = '/' then parseStrBody ('/' :: acc) rest2
        else if e = 'b' then parseStrBody (Char.ofNat 8 :: acc) rest2
        else if e = 'f' then parseStrBody (Char.ofNat 12 :: acc) rest2
        else if e = 'n' then parseStrBody ('\n' :: acc) rest2
        else if e = 'r' then parseStrBody ('\r' :: acc) rest2
        else if e = 't' then parseStrBody ('\t' :: acc) rest2
        else if e = 'u' then
          match rest2 with
          | h1 :: h2 :: h3 :: h4 :: rest3 =>
            match hexVal h1, hexVal h2, hexVal h3, hexVal h4 with
            | some a, some b, some cc, some d =>
              parseStrBody (Char.ofNat (((a * 16 + b) * 16 + cc) * 16 + d) :: acc) rest3
            | _, _, _, _ => .error "invalid hex escape"
          | _ => .error "unexpected end of input in hex escape"
        else .error "unknown escape"
    else if c.toNat < 32 then .error "control character in string"
    else parseStrBody (c :: acc) rest

/-- Longest prefix of decimal digits. -/
def spanDigits : List Char → (List Char × List Char)
  | [] => ([], [])
  | c :: rest =>
    if '0' ≤ c ∧ c ≤ '9' then
      let (ds, rest2) := spanDigits rest
      (c :: ds, rest2)
    else ([], c :: rest)

/-- Numeric value of a digit string. -/
def digitsToNat (ds : List Char) : Nat :=
  ds.foldl (fun acc c => acc * 10 + (c.toNat - '0'.toNat)) 0

/-- Parse a JSON number.  Only integer numerals are modeled (every
numeric field of the transcript schema is a token count); a fraction or
exponent part is rejected here. -/
def parseNum (cs : List Char) : Except String (Int × List Char) :=
  let (neg, cs2) := match cs with
    | '-' :: rest => (true, rest)
    | _ => (false, cs)
  match spanDigits cs2 with
  | ([], _) => .error "expected digit"
  | (ds, rest) =>
    if ds.length > 1 ∧ ds.headD '0' = '0' then .error "leading zero"
    else
      match rest with
      | c :: _ =>
        if c = '.' ∨ c = 'e' ∨ c = 'E' then .error "non-integer number not modeled"
        else .ok (if neg then -(digitsToNat ds : Int) else (digitsToNat ds : Int), rest)
      | [] => .ok (if neg then -(digitsToNat ds : Int) else (digitsToNat ds : Int), rest)

/-- Require a literal character sequence. -/
def expectChars (lit : List Char) (cs : List Char) : Except String (List Char) :=
  match lit, cs with
  | [], rest => .ok rest
  | l :: lit2, c :: rest =>
    if c = l then expectChars lit2 rest else .error "unexpected character"
  | _ :: _, [] => .error "unexpected end of input"

mutual

/-- Recursive-descent parse of one JSON value; fuel bounds the recursion
depth and is initialized generously from the input length. -/
def parseVal : Nat → List Char → Except String (Json × List Char)
  | 0, _ => .error "input too deeply nested"
  | fuel + 1, cs =>
    match skipWs cs with
    | [] => .error "unexpected end of input"
    | c :: rest =>
      if c = 'n' then do
        let rest2 ← expectChars ['u', 'l', 'l'] rest
        .ok (Json.null, rest2)
      else if c = 't' then do
        let rest2 ← expectChars ['r', 'u', 'e'] rest
        .ok (Json.bool true, rest2)
      else if c = 'f' then do
        let rest2 ← expectChars ['a', 'l', 's', 'e'] rest
        .ok (Json.bool false, rest2)
      else if c = '"' then do
        let (s, rest2) ← parseStrBody [] rest
        .ok (Json.str s, rest2)
      else if c = '[' then
        match skipWs rest with
        | ']' :: rest2 => .ok (Json.arr [], rest2)
        | rest2 => parseArrElems fuel rest2 []
      else if c = lbraceChar then
        match skipWs rest with
        | d :: rest2 =>
          if d = rbraceChar then .ok (Json.obj [], rest2)
          else parseObjMembers fuel (d :: rest2) []
        | [] => .error "unexpected end of input in object"
      else do
        let (n, rest2) ← parseNum (c :: rest)
        .ok (Json.num n, rest2)

/-- Elements of a JSON array after `[`, accumulated in reverse. -/
def parseArrElems : Nat → List Char → List Json → Except String (Json × List Char)
  | 0, _, _ => .error "input too deeply nested"
  | fuel + 1, cs, acc => do
    let (v, rest) ← parseVal fuel cs
    match skipWs rest with
    | ',' :: rest2 => parseArrElems fuel rest2 (v :: acc)
    | ']' :: rest2 => .ok (Json.arr (v :: acc).reverse, rest2)
    | _ => .error "expected comma or closing bracket"

/-- Members of a JSON object after `{`, accumulated in reverse.
Duplicate keys are kept in source order (the association list records
them all; struct decoding reads the first occurrence). -/
def parseObjMembers : Nat → List Char → List (String × Json) →
    Except String (Json × List Char)
  | 0, _, _ => .error "input too deeply nested"
  | fuel + 1, cs, acc =>
    match skipWs cs with
    | '"' :: rest => do
      let (k, rest2) ← parseStrBody [] rest
      match skipWs rest2 with
      | ':' :: rest3 => do
        let (v, rest4) ← parseVal fuel rest3
        match skipWs rest4 with
        | ',' :: rest5 => parseObjMembers fuel rest5 ((k, v) :: acc)
        | d :: rest5 =>
          if d = rbraceChar then .ok (Json.obj ((k, v) :: acc).reverse, rest5)
          else .error "expected comma or closing brace"
        | [] => .error "unexpected end of input in object"
      | _ => .error "expected colon"
    | _ => .error "expected string key"

end

/-- Parse a complete JSON document: one value with only whitespace
around it (the contract of `serde_json::from_str`). -/
def parseJson (s : String) : Except String Json :=
  match parseVal (2 * s.length + 16) s.toList with
  | .ok (v, rest) =>
    match skipWs rest with
    | [] => .ok v
    | _ => .error "trailing characters"
  | .error e => .error e

/-- Decode a JSON string (serde `String`). -/
def dString : Json → Except String String
  | .str s => .ok s
  | _ => .error "expected string"

/-- Decode a JSON boolean (serde `bool`). -/
def dBool : Json → Except String Bool
  | .bool b => .ok b
  | _ => .error "expected boolean"

/-- Decode a `u64`: an integer numeral within the 64-bit unsigned range. -/
def dNat64 : Json → Except String Nat
  | .num n => if 0 ≤ n ∧ n < (2 ^ 64 : Int) then .ok n.toNat else .error "u64 out of range"
  | _ => .error "expected u64"

/-- Decode a `serde_json::Value`: any JSON value, verbatim. -/
def dValue : Json → Except String Json := fun j => .ok j

/-- Required struct field: the key must be present (serde errors with
`missing field` otherwise). -/
def reqF (fs : List (String × Json)) (k : String) (d : Json → Except String α) :
    Except String α :=
  match jLookup fs k with
  | some v => d v
  | none => .error ("missing field " ++ k)

/-- Optional struct field (`Option<T>`): absent or `null` decodes to
`none`, anything else through `d`. -/
def optF (fs : List (String × Json)) (k : String) (d : Json → Except String α) :
    Except String (Option α) :=
  match jLookup fs k with
  | none => .ok none
  | some v => if v = .null then .ok none else (d v).map some

/-- Decode every element of a JSON array in order; the first failure
fails the whole sequence (serde's `Vec<T>` decoding). -/
def decodeList (d : Json → Except String α) : List Json → Except String (List α)
  | [] => .ok []
  | x :: rest => do
    let a ← d x
    let as ← decodeList d rest
    .ok (a :: as)

/-- Emit a key only when the value is present
(`skip_serializing_if = "Option::is_none"`). -/
def optPair (k : String) : Option Json → List (String × Json)
  | none => []
  | some v => [(k, v)]

/-- Serialize an always-emitted `Option<String>` field (no skip
attribute): `none` serializes as `null`. -/
def encOptStr : Option String → Json
  | none => .null
  | some s => .str s

namespace ClaudeTranscript

/-- `UsageInfo` from `crates/claude-transcript/src/lib.rs` (no
`rename_all`: keys stay snake_case; every field optional and skipped when
absent). -/
structure UsageInfo where
  cache_creation_input_tokens : Option Nat
  cache_read_input_tokens : Option Nat
  input_tokens : Option Nat
  output_tokens : Option Nat
  service_tier : Option String
deriving DecidableEq

/-- `ToolUse` (camelCase keys `toolName`, `toolInput`, `toolOutput`). -/
structure ToolUse where
  tool_name : String
  tool_input : Json
  tool_output : Option Json
deriving DecidableEq

/-- `CodeOutput` (keys `code`, `output`, `language`). -/
structure CodeOutput where
  code : String
  output : Option String
  language : Option String
deriving DecidableEq

/-- `ToolResultItem` (`item_type` renamed to `type` on the wire). -/
structure ToolResultItem where
  item_type : String
  text : String
deriving DecidableEq

/-- `ToolResultContent`: untagged union of a bare string and a list of
items. -/
inductive ToolResultContent where
  | text (s : String) : ToolResultContent
  | array (items : List ToolResultItem) : ToolResultContent
deriving DecidableEq

/-- `ContentBlock`: internally tagged by `type` with snake_case variant
names `text`, `tool_use`, `tool_result`, `thinking`. -/
inductive ContentBlock where
  | text (text : String) : ContentBlock
  | toolUse (id : String) (name : String) (input : Json) : ContentBlock
  | toolResult (tool_use_id : String) (content : ToolResultContent)
      (is_error : Option Bool) : ContentBlock
  | thinking (thinking : String) (signature : Option String) : ContentBlock
deriving DecidableEq

/-- `MessageContent`: untagged union of a bare string and a block list. -/
inductive MessageContent where
  | text (s : String) : MessageContent
  | blocks (bs : List ContentBlock) : MessageContent
deriving DecidableEq

/-- `TranscriptMessage`: internally tagged by `role` with lowercase
variant names `user`, `assistant`. -/
inductive TranscriptMessage where
  | user (content : Option MessageContent) : TranscriptMessage
  | assistant (id : String) (message_type : String) (model : String)
      (content : Option MessageContent) (thinking : Option String)
      (tool_uses : Option (List ToolUse)) (code_outputs : Option (List CodeOutput))
      (stop_reason : Option String) (stop_sequence : Option String)
      (usage : UsageInfo) : TranscriptMessage
deriving DecidableEq

/-- `UserEntry` (camelCase keys; `toolUseResult` skipped when absent,
`parentUuid` always serialized). -/
structure UserEntry where
  uuid : String
  timestamp : String
  message : TranscriptMessage
  cwd : String
  session_id : String
  version : String
  user_type : String
  is_sidechain : Bool
  parent_uuid : Option String
  tool_use_result : Option Json
deriving DecidableEq

/-- `AssistantEntry` (camelCase keys; `requestId` and
`isApiErrorMessage` optional and skipped when absent). -/
structure AssistantEntry where
  uuid : String
  timestamp : String
  message : TranscriptMessage
  cwd : String
  session_id : String
  version : String
  user_type : String
  is_sidechain : Bool
  parent_uuid : String
  request_id : Option String
  is_api_error_message : Option Bool
deriving DecidableEq

/-- `SummaryEntry`. -/
structure SummaryEntry where
  summary : String
  leaf_uuid : String
deriving DecidableEq

/-- `SystemEntry` (camelCase keys; `level` and `toolUseID` optional and
skipped when absent). -/
structure SystemEntry where
  uuid : String
  timestamp : String
  content : String
  cwd : String
  session_id : String
  version : String
  user_type : String
  is_sidechain : Bool
  parent_uuid : String
  is_meta : Bool
  level : Option String
  tool_use_id : Option String
deriving DecidableEq

/-- `TranscriptEntry`: internally tagged by `type` with lowercase variant
names `user`, `assistant`, `summary`, `system`. -/
inductive TranscriptEntry where
  | user (e : UserEntry) : TranscriptEntry
  | assistant (e : AssistantEntry) : TranscriptEntry
  | summary (e : SummaryEntry) : TranscriptEntry
  | system (e : SystemEntry) : TranscriptEntry
deriving DecidableEq

/-- Decode `UsageInfo`. -/
def decodeUsageInfo : Json → Except String UsageInfo
  | .obj fs => do
    let cc ← optF fs "cache_creation_input_tokens" dNat64
    let cr ← optF fs "cache_read_input_tokens" dNat64
    let it ← optF fs "input_tokens" dNat64
    let ot ← optF fs "output_tokens" dNat64
    let st ← optF fs "service_tier" dString
    .ok ⟨cc, cr, it, ot, st⟩
  | _ => .error "expected object for UsageInfo"

/-- Decode `ToolUse`. -/
def decodeToolUse : Json → Except String ToolUse
  | .obj fs => do
    let tn ← reqF fs "toolName" dString
    let ti ← reqF fs "toolInput" dValue
    let to2 ← optF fs "toolOutput" dValue
    .ok ⟨tn, ti, to2⟩
  | _ => .error "expected object for ToolUse"

/-- Decode a `Vec<ToolUse>`. -/
def decodeToolUses : Json → Except String (List ToolUse)
  | .arr xs => decodeList decodeToolUse xs
  | _ => .error "expected array of ToolUse"

/-- Decode `CodeOutput`. -/
def decodeCodeOutput : Json → Except String CodeOutput
  | .obj fs => do
    let c ← reqF fs "code" dString
    let o ← optF fs "output" dString
    let l ← optF fs "language" dString
    .ok ⟨c, o, l⟩
  | _ => .error "expected object for CodeOutput"

/-- Decode a `Vec<CodeOutput>`. -/
def decodeCodeOutputs : Json → Except String (List CodeOutput)
  | .arr xs => decodeList decodeCodeOutput xs
  | _ => .error "expected array of CodeOutput"

/-- Decode `ToolResultItem`. -/
def decodeToolResultItem : Json → Except String ToolResultItem
  | .obj fs => do
    let t ← reqF fs "type" dString
    let x ← reqF fs "text" dString
    .ok ⟨t, x⟩
  | _ => .error "expected object for ToolResultItem"

/-- Decode `ToolResultContent` (untagged: a string matches the `Text`
variant, an array of items the `Array` variant). -/
def decodeToolResultContent : Json → Except String ToolResultContent
  | .str s => .ok (.text s)
  | .arr xs => (decodeList decodeToolResultItem xs).map .array
  | _ => .error "data did not match any variant of ToolResultContent"

/-- Decode `ContentBlock`, dispatching on the `type` tag. -/
def decodeContentBlock : Json → Except String ContentBlock
  | .obj fs =>
    match jLookup fs "type" with
    | some (.str t) =>
      if t = "text" then do
        let x ← reqF fs "text" dString
        .ok (.text x)
      else if t = "tool_use" then do
        let i ← reqF fs "id" dString
        let n ← reqF fs "name" dString
        let inp ← reqF fs "input" dValue
        .ok (.toolUse i n inp)
      else if t = "tool_result" then do
        let tu ← reqF fs "tool_use_id" dString
        let c ← reqF fs "content" decodeToolResultContent
        let ie ← optF fs "is_error" dBool
        .ok (.toolResult tu c ie)
      else if t = "thinking" then do
        let th ← reqF fs "thinking" dString
        let sg ← optF fs "signature" dString
        .ok (.thinking th sg)
      else .error ("unknown variant " ++ t)
    | some _ => .error "tag type must be a string"
    | none => .error "missing field type"
  | _ => .error "expected object for ContentBlock"

/-- Decode `MessageContent` (untagged: a string matches `Text`, an array
whose every element is a `ContentBlock` matches `Blocks`). -/
def decodeMessageContent : Json → Except String MessageContent
  | .str s => .ok (.text s)
  | .arr xs => (decodeList decodeContentBlock xs).map .blocks
  | _ => .error "data did not match any variant of MessageContent"

/-- Decode `TranscriptMessage`, dispatching on the `role` tag. -/
def decodeTranscriptMessage : Json → Except String TranscriptMessage
  | .obj fs =>
    match jLookup fs "role" with
    | some (.str r) =>
      if r = "user" then do
        let c ← optF fs "content" decodeMessageContent
        .ok (.user c)
      else if r = "assistant" then do
        let i ← reqF fs "id" dString
        let mt ← reqF fs "type" dString
        let md ← reqF fs "model" dString
        let c ← optF fs "content" decodeMessageContent
        let th ← optF fs "thinking" dString
        let tu ← optF fs "tool_uses" decodeToolUses
        let co ← optF fs "code_outputs" decodeCodeOutputs
        let sr ← optF fs "stop_reason" dString
        let ss ← optF fs "stop_sequence" dString
        let us ← reqF fs "usage" decodeUsageInfo
        .ok (.assistant i mt md c th tu co sr ss us)
      else .error ("unknown variant " ++ r)
    | some _ => .error "tag role must be a string"
    | none => .error "missing field role"
  | _ => .error "expected object for TranscriptMessage"

/-- Decode `UserEntry`. -/
def decodeUserEntry (fs : List (String × Json)) : Except String UserEntry := do
  let uu ← reqF fs "uuid" dString
  let ts ← reqF fs "timestamp" dString
  let ms ← reqF fs "message" decodeTranscriptMessage
  let cw ← reqF fs "cwd" dString
  let si ← reqF fs "sessionId" dString
  let ve ← reqF fs "version" dString
  let ut ← reqF fs "userType" dString
  let sc ← reqF fs "isSidechain" dBool
  let pu ← optF fs "parentUuid" dString
  let tr ← optF fs "toolUseResult" dValue
  .ok ⟨uu, ts, ms, cw, si, ve, ut, sc, pu, tr⟩

/-- Decode `AssistantEntry`. -/
def decodeAssistantEntry (fs : List (String × Json)) : Except String AssistantEntry := do
  let uu ← reqF fs "uuid" dString
  let ts ← reqF fs "timestamp" dString
  let ms ← reqF fs "message" decodeTranscriptMessage
  let cw ← reqF fs "cwd" dString
  let si ← reqF fs "sessionId" dString
  let ve ← reqF fs "version" dString
  let ut ← reqF fs "userType" dString
  let sc ← reqF fs "isSidechain" dBool
  let pu ← reqF fs "parentUuid" dString
  let ri ← optF fs "requestId" dString
  let ae ← optF fs "isApiErrorMessage" dBool
  .ok ⟨uu, ts, ms, cw, si, ve, ut, sc, pu, ri, ae⟩

/-- Decode `SummaryEntry`. -/
def decodeSummaryEntry (fs : List (String × Json)) : Except String SummaryEntry := do
  let su ← reqF fs "summary" dString
  let lu ← reqF fs "leafUuid" dString
  .ok ⟨su, lu⟩

/-- Decode `SystemEntry`. -/
def decodeSystemEntry (fs : List (String × Json)) : Except String SystemEntry := do
  let uu ← reqF fs "uuid" dString
  let ts ← reqF fs "timestamp" dString
  let ct ← reqF fs "content" dString
  let cw ← reqF fs "cwd" dString
  let si ← reqF fs "sessionId" dString
  let ve ← reqF fs "version" dString
  let ut ← reqF fs "userType" dString
  let sc ← reqF fs "isSidechain" dBool
  let pu ← reqF fs "parentUuid" dString
  let im ← reqF fs "isMeta" dBool
  let lv ← optF fs "level" dString
  let ti ← optF fs "toolUseID" dString
  .ok ⟨uu, ts, ct, cw, si, ve, ut, sc, pu, im, lv, ti⟩

/-- Decode `TranscriptEntry`, dispatching on the `type` tag. -/
def decodeTranscriptEntry : Json → Except String TranscriptEntry
  | .obj fs =>
    match jLookup fs "type" with
    | some (.str t) =>
      if t = "user" then (decodeUserEntry fs).map .user
      else if t = "assistant" then (decodeAssistantEntry fs).map .assistant
      else if t = "summary" then (decodeSummaryEntry fs).map .summary
      else if t = "system" then (decodeSystemEntry fs).map .system
      else .error ("unknown variant " ++ t)
    | some _ => .error "tag type must be a string"
    | none => .error "missing field type"
  | _ => .error "expected object for TranscriptEntry"

/-- Serialize `UsageInfo`. -/
def serializeUsageInfo (u : UsageInfo) : Json :=
  .obj (optPair "cache_creation_input_tokens" (u.cache_creation_input_tokens.map fun n => .num n)
    ++ optPair "cache_read_input_tokens" (u.cache_read_input_tokens.map fun n => .num n)
    ++ optPair "input_tokens" (u.input_tokens.map fun n => .num n)
    ++ optPair "output_tokens" (u.output_tokens.map fun n => .num n)
    ++ optPair "service_tier" (u.service_tier.map Json.str))

/-- Serialize `ToolUse`. -/
def serializeToolUse (t : ToolUse) : Json :=
  .obj ([("toolName", Json.str t.tool_name), ("toolInput", t.tool_input)]
    ++ optPair "toolOutput" t.tool_output)

/-- Serialize `CodeOutput`. -/
def serializeCodeOutput (c : CodeOutput) : Json :=
  .obj ([("code", Json.str c.code)]
    ++ optPair "output" (c.output.map Json.str)
    ++ optPair "language" (c.language.map Json.str))

/-- Serialize `ToolResultItem`. -/
def serializeToolResultItem (i : ToolResultItem) : Json :=
  .obj [("type", Json.str i.item_type), ("text", Json.str i.text)]

/-- Serialize `ToolResultContent`. -/
def serializeToolResultContent : ToolResultContent → Json
  | .text s => .str s
  | .array items => .arr (items.map serializeToolResultItem)

/-- Serialize `ContentBlock` (tag key `type` first). -/
def serializeContentBlock : ContentBlock → Json
  | .text x => .obj [("type", Json.str "text"), ("text", Json.str x)]
  | .toolUse i n inp =>
    .obj [("type", Json.str "tool_use"), ("id", Json.str i), ("name", Json.str n),
      ("input", inp)]
  | .toolResult tu c ie =>
    .obj ([("type", Json.str "tool_result"), ("tool_use_id", Json.str tu),
      ("content", serializeToolResultContent c)]
      ++ optPair "is_error" (ie.map Json.bool))
  | .thinking th sg =>
    .obj ([("type", Json.str "thinking"), ("thinking", Json.str th)]
      ++ optPair "signature" (sg.map Json.str))

/-- Serialize `MessageContent` (untagged). -/
def serializeMessageContent : MessageContent → Json
  | .text s => .str s
  | .blocks bs => .arr (bs.map serializeContentBlock)

/-- Serialize `TranscriptMessage` (tag key `role` first). -/
def serializeTranscriptMessage : TranscriptMessage → Json
  | .user c => .obj ([("role", Json.str "user")]
      ++ optPair "content" (c.map serializeMessageContent))
  | .assistant i mt md c th tu co sr ss us =>
    .obj ([("role", Json.str "assistant"), ("id", Json.str i),
      ("type", Json.str mt), ("model", Json.str md)]
      ++ optPair "content" (c.map serializeMessageContent)
      ++ optPair "thinking" (th.map Json.str)
      ++ optPair "tool_uses" (tu.map fun l => Json.arr (l.map serializeToolUse))
      ++ optPair "code_outputs" (co.map fun l => Json.arr (l.map serializeCodeOutput))
      ++ [("stop_reason", encOptStr sr), ("stop_sequence", encOptStr ss),
        ("usage", serializeUsageInfo us)])

/-- Serialize the fields of `UserEntry` in declaration order. -/
def serializeUserEntryFields (u : UserEntry) : List (String × Json) :=
  [("uuid", Json.str u.uuid), ("timestamp", Json.str u.timestamp),
    ("message", serializeTranscriptMessage u.message), ("cwd", Json.str u.cwd),
    ("sessionId", Json.str u.session_id), ("version", Json.str u.version),
    ("userType", Json.str u.user_type), ("isSidechain", Json.bool u.is_sidechain),
    ("parentUuid", encOptStr u.parent_uuid)]
  ++ optPair "toolUseResult" u.tool_use_result

/-- Serialize the fields of `AssistantEntry` in declaration order. -/
def serializeAssistantEntryFields (a : AssistantEntry) : List (String × Json) :=
  [("uuid", Json.str a.uuid), ("timestamp", Json.str a.timestamp),
    ("message", serializeTranscriptMessage a.message), ("cwd", Json.str a.cwd),
    ("sessionId", Json.str a.session_id), ("version", Json.str a.version),
    ("userType", Json.str a.user_type), ("isSidechain", Json.bool a.is_sidechain),
    ("parentUuid", Json.str a.parent_uuid)]
  ++ optPair "requestId" (a.request_id.map Json.str)
  ++ optPair "isApiErrorMessage" (a.is_api_error_message.map Json.bool)

/-- Serialize the fields of `SummaryEntry`. -/
def serializeSummaryEntryFields (s : SummaryEntry) : List (String × Json) :=
  [("summary", Json.str s.summary), ("leafUuid", Json.str s.leaf_uuid)]

/-- Serialize the fields of `SystemEntry` in declaration order. -/
def serializeSystemEntryFields (s : SystemEntry) : List (String × Json) :=
  [("uuid", Json.str s.uuid), ("timestamp", Json.str s.timestamp),
    ("content", Json.str s.content), ("cwd", Json.str s.cwd),
    ("sessionId", Json.str s.session_id), ("version", Json.str s.version),
    ("userType", Json.str s.user_type), ("isSidechain", Json.bool s.is_sidechain),
    ("parentUuid", Json.str s.parent_uuid), ("isMeta", Json.bool s.is_meta)]
  ++ optPair "level" (s.level.map Json.str)
  ++ optPair "toolUseID" (s.tool_use_id.map Json.str)

/-- Serialize `TranscriptEntry` (tag key `type` first, then the variant
struct's fields). -/
def serializeTranscriptEntry : TranscriptEntry → Json
  | .user u => .obj (("type", Json.str "user") :: serializeUserEntryFields u)
  | .assistant a => .obj (("type", Json.str "assistant") :: serializeAssistantEntryFields a)
  | .summary s => .obj (("type", Json.str "summary") :: serializeSummaryEntryFields s)
  | .system s => .obj (("type", Json.str "system") :: serializeSystemEntryFields s)

end ClaudeTranscript

/-- Strip one trailing carriage return (the `\r` of a `\r\n` line
ending). -/
def stripTrailingCR (s : String) : String :=
  match s.toList.getLast? with
  | some '\r' => String.mk s.toList.dropLast
  | _ => s

/-- Split a character list at every `\n`; always yields at least one
(possibly empty) segment. -/
def splitSegments : List Char → List (List Char)
  | [] => [[]]
  | '\n' :: rest => [] :: splitSegments rest
  | c :: rest =>
    match splitSegments rest with
    | seg :: segs => (c :: seg) :: segs
    | [] => [[c]]

/-- Rust's `str::lines`: split at `\n`, strip the `\r` of `\r\n`
endings from every line that was followed by a `\n`, and do not yield a
final empty line for a trailing newline. -/
def rustLines (s : String) : List String :=
  let parts := (splitSegments s.toList).map String.mk
  match parts.getLast? with
  | none => []
  | some last =>
    let front := parts.dropLast.map stripTrailingCR
    if last = "" then front else front ++ [last]

namespace ClaudeTranscript

/-- `TranscriptParseError` from `crates/claude-transcript/src/parse.rs`;
the underlying `serde_json::Error` is carried as its message string. -/
structure TranscriptParseError where
  line_number : Nat
  line_content : String
  json_error : String
deriving DecidableEq

/-- `TranscriptParseResult`. -/
structure TranscriptParseResult where
  entries : List TranscriptEntry
  errors : List TranscriptParseError
deriving DecidableEq

/-- `parse_transcript_line`: `serde_json::from_str` on one line. -/
def parse_transcript_line (line : String) : Except String TranscriptEntry :=
  parseJson line >>= decodeTranscriptEntry

/-- The iterator chain of `parse_transcript`: non-empty lines decoded in
order, collected into a `Result` that stops at the first error. -/
def collectEntries : List String → Except String (List TranscriptEntry)
  | [] => .ok []
  | line :: rest =>
    if line = "" then collectEntries rest
    else do
      let e ← parse_transcript_line line
      let es ← collectEntries rest
      .ok (e :: es)

/-- `parse_transcript`: all-or-nothing whole-text parse. -/
def parse_transcript (content : String) : Except String (List TranscriptEntry) :=
  collectEntries (rustLines content)

/-- The loop body of `parse_transcript_with_context` over the enumerated
lines (0-based index paired with the line, as `enumerate` yields). -/
def parseWithContextLoop : List (Nat × String) →
    List TranscriptEntry × List TranscriptParseError
  | [] => ([], [])
  | (idx, line) :: rest =>
    let (entries, errors) := parseWithContextLoop rest
    if line = "" then (entries, errors)
    else
      match parse_transcript_line line with
      | .ok entry => (entry :: entries, errors)
      | .error json_error => (entries, ⟨idx + 1, line, json_error⟩ :: errors)

/-- `parse_transcript_with_context`: isolate-and-continue parse keeping
per-line errors with 1-based line numbers. -/
def parse_transcript_with_context (content : String) : TranscriptParseResult :=
  let (entries, errors) := parseWithContextLoop (rustLines content).enum
  ⟨entries, errors⟩

end ClaudeTranscript

namespace TenxHooks

/-- `UsageInfo` from `crates/tenx-hooks/src/transcript.rs` (identical to
the claude-transcript one). -/
structure UsageInfo where
  cache_creation_input_tokens : Option Nat
  cache_read_input_tokens : Option Nat
  input_tokens : Option Nat
  output_tokens : Option Nat
  service_tier : Option String
deriving DecidableEq

/-- `ToolUse` (tenx-hooks copy). -/
structure ToolUse where
  tool_name : String
  tool_input : Json
  tool_output : Option Json
deriving DecidableEq

/-- `CodeOutput` (tenx-hooks copy). -/
structure CodeOutput where
  code : String
  output : Option String
  language : Option String
deriving DecidableEq

/-- `ToolResultItem` (tenx-hooks copy). -/
structure ToolResultItem where
  item_type : String
  text : String
deriving DecidableEq

/-- `ToolResultContent` (tenx-hooks copy). -/
inductive ToolResultContent where
  | text (s : String) : ToolResultContent
  | array (items : List ToolResultItem) : ToolResultContent
deriving DecidableEq

/-- `ContentBlock` in tenx-hooks: only `text`, `tool_use`, `tool_result`
(no `thinking` variant). -/
inductive ContentBlock where
  | text (text : String) : ContentBlock
  | toolUse (id : String) (name : String) (input : Json) : ContentBlock
  | toolResult (tool_use_id : String) (content : ToolResultContent)
      (is_error : Option Bool) : ContentBlock
deriving DecidableEq

/-- `MessageContent` (tenx-hooks copy). -/
inductive MessageContent where
  | text (s : String) : MessageContent
  | blocks (bs : List ContentBlock) : MessageContent
deriving DecidableEq

/-- `TranscriptMessage` in tenx-hooks: a single struct whose fields are
all optional (`message_type` renamed to `type` on the wire). -/
structure TranscriptMessage where
  content : Option MessageContent
  thinking : Option String
  tool_uses : Option (List ToolUse)
  code_outputs : Option (List CodeOutput)
  role : Option String
  id : Option String
  model : Option String
  stop_reason : Option String
  stop_sequence : Option String
  message_type : Option String
  usage : Option UsageInfo
deriving DecidableEq

/-- `UserEntry` (tenx-hooks copy). -/
structure UserEntry where
  uuid : String
  timestamp : String
  message : TranscriptMessage
  cwd : String
  session_id : String
  version : String
  user_type : String
  is_sidechain : Bool
  parent_uuid : Option String
  tool_use_result : Option Json
deriving DecidableEq

/-- `AssistantEntry` in tenx-hooks: `requestId` is required here. -/
structure AssistantEntry where
  uuid : String
  timestamp : String
  message : TranscriptMessage
  cwd : String
  session_id : String
  version : String
  user_type : String
  is_sidechain : Bool
  parent_uuid : String
  request_id : String
deriving DecidableEq

/-- `SummaryEntry` (tenx-hooks copy). -/
structure SummaryEntry where
  summary : String
  leaf_uuid : String
deriving DecidableEq

/-- `SystemEntry` in tenx-hooks: `level` and `toolUseID` are required
here. -/
structure SystemEntry where
  uuid : String
  timestamp : String
  content : String
  cwd : String
  session_id : String
  version : String
  user_type : String
  is_sidechain : Bool
  parent_uuid : String
  is_meta : Bool
  level : String
  tool_use_id : String
deriving DecidableEq

/-- `TranscriptEntry` (tenx-hooks copy). -/
inductive TranscriptEntry where
  | user (e : UserEntry) : TranscriptEntry
  | assistant (e : AssistantEntry) : TranscriptEntry
  | summary (e : SummaryEntry) : TranscriptEntry
  | system (e : SystemEntry) : TranscriptEntry
deriving DecidableEq

/-- Decode `UsageInfo` (tenx-hooks copy). -/
def decodeUsageInfo : Json → Except String UsageInfo
  | .obj fs => do
    let cc ← optF fs "cache_creation_input_tokens" dNat64
    let cr ← optF fs "cache_read_input_tokens" dNat64
    let it ← optF fs "input_tokens" dNat64
    let ot ← optF fs "output_tokens" dNat64
    let st ← optF fs "service_tier" dString
    .ok ⟨cc, cr, it, ot, st⟩
  | _ => .error "expected object for UsageInfo"

/-- Decode `ToolUse` (tenx-hooks copy). -/
def decodeToolUse : Json → Except String ToolUse
  | .obj fs => do
    let tn ← reqF fs "toolName" dString
    let ti ← reqF fs "toolInput" dValue
    let to2 ← optF fs "toolOutput" dValue
    .ok ⟨tn, ti, to2⟩
  | _ => .error "expected object for ToolUse"

/-- Decode a `Vec<ToolUse>` (tenx-hooks copy). -/
def decodeToolUses : Json → Except String (List ToolUse)
  | .arr xs => decodeList decodeToolUse xs
  | _ => .error "expected array of ToolUse"

/-- Decode `CodeOutput` (tenx-hooks copy). -/
def decodeCodeOutput : Json → Except String CodeOutput
  | .obj fs => do
    let c ← reqF fs "code" dString
    let o ← optF fs "output" dString
    let l ← optF fs "language" dString
    .ok ⟨c, o, l⟩
  | _ => .error "expected object for CodeOutput"

/-- Decode a `Vec<CodeOutput>` (tenx-hooks copy). -/
def decodeCodeOutputs : Json → Except String (List CodeOutput)
  | .arr xs => decodeList decodeCodeOutput xs
  | _ => .error "expected array of CodeOutput"

/-- Decode `ToolResultItem` (tenx-hooks copy). -/
def decodeToolResultItem : Json → Except String ToolResultItem
  | .obj fs => do
    let t ← reqF fs "type" dString
    let x ← reqF fs "text" dString
    .ok ⟨t, x⟩
  | _ => .error "expected object for ToolResultItem"

/-- Decode `ToolResultContent` (tenx-hooks copy). -/
def decodeToolResultContent : Json → Except String ToolResultContent
  | .str s => .ok (.text s)
  | .arr xs => (decodeList decodeToolResultItem xs).map .array
  | _ => .error "data did not match any variant of ToolResultContent"

/-- Decode `ContentBlock` (tenx-hooks copy): recognized `type` tags are
`text`, `tool_use` and `tool_result` only. -/
def decodeContentBlock : Json → Except String ContentBlock
  | .obj fs =>
    match jLookup fs "type" with
    | some (.str t) =>
      if t = "text" then do
        let x ← reqF fs "text" dString
        .ok (.text x)
      else if t = "tool_use" then do
        let i ← reqF fs "id" dString
        let n ← reqF fs "name" dString
        let inp ← reqF fs "input" dValue
        .ok (.toolUse i n inp)
      else if t = "tool_result" then do
        let tu ← reqF fs "tool_use_id" dString
        let c ← reqF fs "content" decodeToolResultContent
        let ie ← optF fs "is_error" dBool
        .ok (.toolResult tu c ie)
      else .error ("unknown variant " ++ t)
    | some _ => .error "tag type must be a string"
    | none => .error "missing field type"
  | _ => .error "expected object for ContentBlock"

/-- Decode `MessageContent` (tenx-hooks copy). -/
def decodeMessageContent : Json → Except String MessageContent
  | .str s => .ok (.text s)
  | .arr xs => (decodeList decodeContentBlock xs).map .blocks
  | _ => .error "data did not match any variant of MessageContent"

/-- Decode `TranscriptMessage` (tenx-hooks copy: plain struct, every
field optional). -/
def decodeTranscriptMessage : Json → Except String TranscriptMessage
  | .obj fs => do
    let c ← optF fs "content" decodeMessageContent
    let th ← optF fs "thinking" dString
    let tu ← optF fs "tool_uses" decodeToolUses
    let co ← optF fs "code_outputs" decodeCodeOutputs
    let ro ← optF fs "role" dString
    let i ← optF fs "id" dString
    let md ← optF fs "model" dString
    let sr ← optF fs "stop_reason" dString
    let ss ← optF fs "stop_sequence" dString
    let mt ← optF fs "type" dString
    let us ← optF fs "usage" decodeUsageInfo
    .ok ⟨c, th, tu, co, ro, i, md, sr, ss, mt, us⟩
  | _ => .error "expected object for TranscriptMessage"

/-- Decode `UserEntry` (tenx-hooks copy). -/
def decodeUserEntry (fs : List (String × Json)) : Except String UserEntry := do
  let uu ← reqF fs "uuid" dString
  let ts ← reqF fs "timestamp" dString
  let ms ← reqF fs "message" decodeTranscriptMessage
  let cw ← reqF fs "cwd" dString
  let si ← reqF fs "sessionId" dString
  let ve ← reqF fs "version" dString
  let ut ← reqF fs "userType" dString
  let sc ← reqF fs "isSidechain" dBool
  let pu ← optF fs "parentUuid" dString
  let tr ← optF fs "toolUseResult" dValue
  .ok ⟨uu, ts, ms, cw, si, ve, ut, sc, pu, tr⟩

/-- Decode `AssistantEntry` (tenx-hooks copy; `requestId` required). -/
def decodeAssistantEntry (fs : List (String × Json)) : Except String AssistantEntry := do
  let uu ← reqF fs "uuid" dString
  let ts ← reqF fs "timestamp" dString
  let ms ← reqF fs "message" decodeTranscriptMessage
  let cw ← reqF fs "cwd" dString
  let si ← reqF fs "sessionId" dString
  let ve ← reqF fs "version" dString
  let ut ← reqF fs "userType" dString
  let sc ← reqF fs "isSidechain" dBool
  let pu ← reqF fs "parentUuid" dString
  let ri ← reqF fs "requestId" dString
  .ok ⟨uu, ts, ms, cw, si, ve, ut, sc, pu, ri⟩

/-- Decode `SummaryEntry` (tenx-hooks copy). -/
def decodeSummaryEntry (fs : List (String × Json)) : Except String SummaryEntry := do
  let su ← reqF fs "summary" dString
  let lu ← reqF fs "leafUuid" dString
  .ok ⟨su, lu⟩

/-- Decode `SystemEntry` (tenx-hooks copy; `level` and `toolUseID`
required). -/
def decodeSystemEntry (fs : List (String × Json)) : Except String SystemEntry := do
  let uu ← reqF fs "uuid" dString
  let ts ← reqF fs "timestamp" dString
  let ct ← reqF fs "content" dString
  let cw ← reqF fs "cwd" dString
  let si ← reqF fs "sessionId" dString
  let ve ← reqF fs "version" dString
  let ut ← reqF fs "userType" dString
  let sc ← reqF fs "isSidechain" dBool
  let pu ← reqF fs "parentUuid" dString
  let im ← reqF fs "isMeta" dBool
  let lv ← reqF fs "level" dString
  let ti ← reqF fs "toolUseID" dString
  .ok ⟨uu, ts, ct, cw, si, ve, ut, sc, pu, im, lv, ti⟩

/-- Decode `TranscriptEntry` (tenx-hooks copy). -/
def decodeTranscriptEntry : Json → Except String TranscriptEntry
  | .obj fs =>
    match jLookup fs "type" with
    | some (.str t) =>
      if t = "user" then (decodeUserEntry fs).map .user
      else if t = "assistant" then (decodeAssistantEntry fs).map .assistant
      else if t = "summary" then (decodeSummaryEntry fs).map .summary
      else if t = "system" then (decodeSystemEntry fs).map .system
      else .error ("unknown variant " ++ t)
    | some _ => .error "tag type must be a string"
    | none => .error "missing field type"
  | _ => .error "expected object for TranscriptEntry"

/-- `parse_transcript_line` (tenx-hooks copy). -/
def parse_transcript_line (line : String) : Except String TranscriptEntry :=
  parseJson line >>= decodeTranscriptEntry

/-- `MessageContent::as_text`: flatten any content shape to one string,
blocks joined by a single space. -/
def MessageContent.as_text : MessageContent → String
  | .text t => t
  | .blocks bs =>
    String.intercalate " " (bs.map fun b =>
      match b with
      | .text t => t
      | .toolUse _ n _ => n
      | .toolResult _ c _ =>
        match c with
        | .text t => t
        | .array items => String.intercalate " " (items.map ToolResultItem.text))

/-- `MessageContent::count_tool_uses`. -/
def MessageContent.count_tool_uses : MessageContent → Nat
  | .text _ => 0
  | .blocks bs => (bs.filter fun b =>
      match b with
      | .toolUse _ _ _ => true
      | _ => false).length

/-- `MessageContent::has_tool_uses`. -/
def MessageContent.has_tool_uses : MessageContent → Bool
  | .text _ => false
  | .blocks bs => bs.any fun b =>
      match b with
      | .toolUse _ _ _ => true
      | _ => false

/-- `MessageContent::count_tool_results`. -/
def MessageContent.count_tool_results : MessageContent → Nat
  | .text _ => 0
  | .blocks bs => (bs.filter fun b =>
      match b with
      | .toolResult _ _ _ => true
      | _ => false).length

/-- `TranscriptEntry::description`.  Note the user branch: the preview
takes the first 50 *characters* of the flattened text while the
truncation test compares the *byte* length (`text.len()` in Rust) with
50. -/
def description : TranscriptEntry → String
  | .system e => "System[" ++ e.level ++ "]"
  | .user e =>
    let preview :=
      match e.message.content with
      | some c =>
        let text := MessageContent.as_text c
        let truncated := String.mk (text.toList.take 50)
        if 50 < text.utf8ByteSize then truncated ++ "..." else truncated
      | none => "No content"
    "User: " ++ preview
  | .assistant e =>
    let has_thinking := e.message.thinking.isSome
    let tool_uses_count := (e.message.tool_uses.map List.length).getD 0
    let content_tool_count := (e.message.content.map MessageContent.count_tool_uses).getD 0
    let total_tool_count := tool_uses_count + content_tool_count
    let code_count := (e.message.code_outputs.map List.length).getD 0
    let parts := ["Assistant"]
      ++ (if has_thinking then ["with thinking"] else [])
      ++ (if 0 < total_tool_count then [toString total_tool_count ++ " tool uses"] else [])
      ++ (if 0 < code_count then [toString code_count ++ " code outputs"] else [])
    String.intercalate ": " parts
  | .summary e => "Summary: " ++ e.summary

end TenxHooks

/-- Keys of an association list are pairwise distinct. -/
def keysDistinct : List (String × Json) → Bool
  | [] => true
  | (k, _) :: rest => rest.all (fun p => decide (p.1 ≠ k)) && keysDistinct rest

mutual

/-- No object anywhere in the value names the same key twice. -/
def noDupKeys : Json → Bool
  | .arr xs => noDupKeysList xs
  | .obj fs => keysDistinct fs && noDupKeysFields fs
  | _ => true

def noDupKeysList : List Json → Bool
  | [] => true
  | x :: xs => noDupKeys x && noDupKeysList xs

def noDupKeysFields : List (String × Json) → Bool
  | [] => true
  | (_, v) :: rest => noDupKeys v && noDupKeysFields rest

end

mutual

/-- `shapePreserved nullOk ser raw`: the re-serialized value `ser` has
the same JSON shape as the raw value `raw` it was parsed from, up to
field order and dropped raw fields — every field `ser` carries is found
in `raw` with a preserved value.  With `nullOk := true`, a field of
`ser` absent from `raw` is additionally tolerated when its value is
`null` (an absent optional field materialized by serialization); with
`nullOk := false` the claim is read strictly. -/
def shapePreserved : Bool → Json → Json → Bool
  | nullOk, .arr xs, .arr ys => shapePreservedList nullOk xs ys
  | nullOk, .obj fs, .obj gs => shapePreservedFields nullOk fs gs
  | _, a, b => decide (a = b)

def shapePreservedList : Bool → List Json → List Json → Bool
  | _, [], [] => true
  | nullOk, x :: xs, y :: ys =>
    shapePreserved nullOk x y && shapePreservedList nullOk xs ys
  | _, _, _ => false

def shapePreservedFields : Bool → List (String × Json) → List (String × Json) → Bool
  | _, [], _ => true
  | nullOk, (k, v) :: rest, gs =>
    (match jLookup gs k with
     | some w => shapePreserved nullOk v w
     | none => nullOk && decide (v = Json.null)) && shapePreservedFields nullOk rest gs

end

/-- A JSON container (object or array). -/
def isContainer : Json → Bool
  | .obj _ => true
  | .arr _ => true
  | _ => false

mutual

/-- Modelled from the spec: the Coverage Validator's
`findMissingFields(raw, typed, pathPrefix)` (spec §4.4) is not present
under `src/`; this definition follows the spec's algorithm word for
word.  If both sides are objects: every key of `raw` absent from the
round-tripped object is recorded as `pathPrefix + key`; a key present in
both where either side is an object or array is recursed into with
`pathPrefix + key + "."`.  If both are arrays: element-wise by index,
recursing with `pathPrefix + "[" + i + "]."`, and raw elements beyond
the typed array's length are reported missing in full.  For scalars or
a structural mismatch no recursion occurs. -/
def findMissingFields : Json → Json → String → List String
  | .obj fs, .obj gs, pfx => missingInFields fs gs pfx
  | .arr xs, .arr ys, pfx => missingInElems xs ys 0 pfx
  | _, _, _ => []

def missingInFields : List (String × Json) → List (String × Json) → String → List String
  | [], _, _ => []
  | (k, v) :: rest, gs, pfx =>
    (match jLookup gs k with
     | none => [pfx ++ k]
     | some w =>
       if isContainer v || isContainer w then findMissingFields v w (pfx ++ k ++ ".")
       else []) ++ missingInFields rest gs pfx

def missingInElems : List Json → List Json → Nat → String → List String
  | [], _, _, _ => []
  | _ :: xs, [], i, pfx =>
    (pfx ++ "[" ++ toString i ++ "]") :: missingInElems xs [] (i + 1) pfx
  | x :: xs, y :: ys, i, pfx =>
    findMissingFields x y (pfx ++ "[" ++ toString i ++ "].")
      ++ missingInElems xs ys (i + 1) pfx

end

deriving instance DecidableEq for Except

set_option maxRecDepth 40000

/-- The concrete input line of the spec's end-to-end scenario. -/
def scenarioLine : String :=
  "\x7b\"type\":\"user\",\"message\":\x7b\"role\":\"user\",\"content\":\"hello\"\x7d,\"uuid\":\"u1\",\"timestamp\":\"t\",\"cwd\":\"/x\",\"sessionId\":\"s\",\"version\":\"1\",\"userType\":\"external\",\"isSidechain\":false,\"parentUuid\":null\x7d"

/-- The message the scenario line decodes to (tenx-hooks model). -/
def scenarioMessage : TenxHooks.TranscriptMessage :=
  ⟨some (.text "hello"), none, none, none, some "user", none, none, none, none, none, none⟩

/-- The entry the scenario line decodes to (tenx-hooks model). -/
def scenarioEntry : TenxHooks.TranscriptEntry :=
  .user ⟨"u1", "t", scenarioMessage, "/x", "s", "1", "external", false, none, none⟩

/-- A system-entry line that omits the optional `level` and `toolUseID`
fields. -/
def systemLineNoLevel : String :=
  "\x7b\"type\":\"system\",\"uuid\":\"u\",\"timestamp\":\"t\",\"content\":\"c\",\"cwd\":\"/x\",\"sessionId\":\"s\",\"version\":\"1\",\"userType\":\"external\",\"isSidechain\":false,\"parentUuid\":\"p\",\"isMeta\":false\x7d"

/-- The system entry `systemLineNoLevel` decodes to: `level` and
`tool_use_id` absent. -/
def systemEntryNoLevel : ClaudeTranscript.SystemEntry :=
  ⟨"u", "t", "c", "/x", "s", "1", "external", false, "p", false, none, none⟩

/-- An assistant-entry line that omits `requestId` and instead carries
`isApiErrorMessage`. -/
def assistantLineNoRequestId : String :=
  "\x7b\"type\":\"assistant\",\"uuid\":\"u\",\"timestamp\":\"t\",\"message\":\x7b\"role\":\"assistant\",\"id\":\"m1\",\"type\":\"message\",\"model\":\"mod\",\"stop_reason\":null,\"stop_sequence\":null,\"usage\":\x7b\x7d\x7d,\"cwd\":\"/x\",\"sessionId\":\"s\",\"version\":\"1\",\"userType\":\"external\",\"isSidechain\":false,\"parentUuid\":\"p\",\"isApiErrorMessage\":true\x7d"

/-- The assistant entry `assistantLineNoRequestId` decodes to:
`request_id` absent, `is_api_error_message` present. -/
def assistantEntryNoRequestId : ClaudeTranscript.AssistantEntry :=
  ⟨"u", "t",
    .assistant "m1" "message" "mod" none none none none none none
      ⟨none, none, none, none, none⟩,
    "/x", "s", "1", "external", false, "p", none, some true⟩

/-- 26 copies of a two-byte character: 26 characters but 52 UTF-8
bytes, so `text.chars().take(50)` keeps all of it while
`text.len() > 50` still holds. -/
def wideText : String := String.mk (List.replicate 26 'é')

/-- A user entry whose flattened content is `wideText`. -/
def wideUserEntry : TenxHooks.TranscriptEntry :=
  .user ⟨"u", "t",
    ⟨some (.text wideText), none, none, none, some "user", none, none, none, none,
      none, none⟩,
    "/x", "s", "1", "external", false, none, none⟩

/-- A user entry whose flattened content is 60 ASCII characters. -/
def sixtyCharUserEntry : TenxHooks.TranscriptEntry :=
  .user ⟨"u", "t",
    ⟨some (.text (String.mk (List.replicate 60 'a'))), none, none, none, some "user",
      none, none, none, none, none, none⟩,
    "/x", "s", "1", "external", false, none, none⟩

/-- The spec's root-level coverage example: a raw summary entry with an
unmodeled `extra` field. -/
def summaryRawWithExtra : Json :=
  .obj [("type", .str "summary"), ("summary", .str "x"), ("leafUuid", .str "y"),
    ("extra", .str "z")]

/-- The round-trip of `summaryRawWithExtra` through the typed model
(the `extra` field is gone). -/
def summaryTypedRoundTrip : Json :=
  .obj [("type", .str "summary"), ("summary", .str "x"), ("leafUuid", .str "y")]

/-- The spec's nested coverage example: raw message content with an
unmodeled nested key. -/
def nestedRawExample : Json :=
  .obj [("message", .obj [("content", .str "hi"), ("unknownNested", .str "v")])]

/-- The round-trip of `nestedRawExample`: the nested key is gone. -/
def nestedTypedRoundTrip : Json :=
  .obj [("message", .obj [("content", .str "hi")])]

/-- A raw user entry without a `parentUuid` key (legal: the field is
optional). -/
def userRawNoParentUuid : Json :=
  .obj [("type", .str "user"), ("uuid", .str "u"), ("timestamp", .str "t"),
    ("message", .obj [("role", .str "user")]), ("cwd", .str "/x"),
    ("sessionId", .str "s"), ("version", .str "1"), ("userType", .str "external"),
    ("isSidechain", .bool false)]

/-- What `userRawNoParentUuid` decodes to. -/
def userEntryNoParentUuid : ClaudeTranscript.TranscriptEntry :=
  .user ⟨"u", "t", .user none, "/x", "s", "1", "external", false, none, none⟩

theorem exceptIsOk_ok {ε α : Type} (a : α) : (Except.ok a : Except ε α).isOk = true := rfl

theorem exceptIsOk_error {ε α : Type} (e : ε) : (Except.error e : Except ε α).isOk = false := rfl

theorem exceptToOption_ok {ε α : Type} (a : α) :
    (Except.ok a : Except ε α).toOption = some a := rfl

theorem exceptToOption_error {ε α : Type} (e : ε) :
    (Except.error e : Except ε α).toOption = none := rfl

namespace ClaudeTranscript

theorem parseWithContextLoop_spec (ps : List (Nat × String)) :
    parseWithContextLoop ps =
      (ps.filterMap (fun p => if p.2 = "" then none else (parse_transcript_line p.2).toOption),
       ps.filterMap (fun p => if p.2 = "" then none
         else match parse_transcript_line p.2 with
           | .ok _ => none
           | .error e => some ⟨p.1 + 1, p.2, e⟩)) := by
  induction ps with
  | nil => rfl
  | cons p rest ih =>
    obtain ⟨i, l⟩ := p
    simp only [parseWithContextLoop, ih, List.filterMap_cons]
    by_cases hl : l = ""
    · simp [hl]
    · cases hp : parse_transcript_line l <;>
        simp [hl, hp, exceptToOption_ok, exceptToOption_error]

theorem entriesFilterMap_length (ls : List String) :
    (ls.filterMap (fun l => if l = "" then none
      else (parse_transcript_line l).toOption)).length
      = (ls.filter (fun l => decide (l ≠ "") && (parse_transcript_line l).isOk)).length := by
  induction ls with
  | nil => rfl
  | cons l rest ih =>
    simp only [List.filterMap_cons, List.filter_cons]
    by_cases hl : l = ""
    · simp [hl, ih]
    · cases hp : parse_transcript_line l <;>
        simp [hl, hp, exceptToOption_ok, exceptToOption_error, exceptIsOk_ok,
          exceptIsOk_error, ih]

theorem errorsFilterMap_length (ls : List String) (n : Nat) :
    ((List.enumFrom n ls).filterMap (fun p => if p.2 = "" then none
      else match parse_transcript_line p.2 with
        | .ok _ => none
        | .error e => some (TranscriptParseError.mk (p.1 + 1) p.2 e))).length
      = (ls.filter (fun l => decide (l ≠ "") && !(parse_transcript_line l).isOk)).length := by
  induction ls generalizing n with
  | nil => rfl
  | cons l rest ih =>
    simp only [List.enumFrom, List.filterMap_cons, List.filter_cons]
    by_cases hl : l = ""
    · simp [hl, ih]
    · cases hp : parse_transcript_line l <;>
        simp [hl, hp, exceptIsOk_ok, exceptIsOk_error, ih]

theorem filter_nonempty_split (ls : List String) :
    (ls.filter (fun l => decide (l ≠ ""))).length
      = (ls.filter (fun l => decide (l ≠ "") && (parse_transcript_line l).isOk)).length
        + (ls.filter (fun l => decide (l ≠ "") && !(parse_transcript_line l).isOk)).length := by
  induction ls with
  | nil => rfl
  | cons l rest ih =>
    simp only [List.filter_cons]
    by_cases hl : l = ""
    · simpa [hl] using ih
    · cases hp : parse_transcript_line l <;>
        simp [hl, hp, exceptIsOk_ok, exceptIsOk_error] at ih ⊢ <;> omega

end ClaudeTranscript

theorem filterMap_enumFrom_snd {α β : Type} (g : α → Option β) (ls : List α) (n : Nat) :
    (List.enumFrom n ls).filterMap (fun p => g p.2) = ls.filterMap g := by
  induction ls generalizing n with
  | nil => rfl
  | cons a rest ih => simp [List.enumFrom, List.filterMap_cons, ih]

/-- C1: `parse_transcript_with_context` never aborts early: its entries
are exactly the non-empty lines that decode, in input order; its errors
are exactly the non-empty lines that fail, in input order, each carrying
the 1-based position of its line; with `n` non-empty lines of which `k`
fail, there are exactly `n - k` entries and `k` errors. -/
theorem parse_with_context_isolates_and_preserves_order (content : String) :
    (ClaudeTranscript.parse_transcript_with_context content).entries
      = (rustLines content).filterMap (fun l => if l = "" then none
          else (ClaudeTranscript.parse_transcript_line l).toOption)
    ∧ (ClaudeTranscript.parse_transcript_with_context content).errors
      = (rustLines content).enum.filterMap (fun p => if p.2 = "" then none
          else match ClaudeTranscript.parse_transcript_line p.2 with
            | .ok _ => none
            | .error e => some ⟨p.1 + 1, p.2, e⟩)
    ∧ (ClaudeTranscript.parse_transcript_with_context content).entries.length
      = ((rustLines content).filter (fun l => decide (l ≠ ""))).length
        - ((rustLines content).filter (fun l => decide (l ≠ "")
            && !(ClaudeTranscript.parse_transcript_line l).isOk)).length
    ∧ (ClaudeTranscript.parse_transcript_with_context content).errors.length
      = ((rustLines content).filter (fun l => decide (l ≠ "")
          && !(ClaudeTranscript.parse_transcript_line l).isOk)).length := by
  have h := ClaudeTranscript.parseWithContextLoop_spec (rustLines content).enum
  have hentries : (ClaudeTranscript.parse_transcript_with_context content).entries
      = (rustLines content).filterMap (fun l => if l = "" then none
          else (ClaudeTranscript.parse_transcript_line l).toOption) := by
    simp only [ClaudeTranscript.parse_transcript_with_context, h]
    exact filterMap_enumFrom_snd
      (fun l => if l = "" then none else (ClaudeTranscript.parse_transcript_line l).toOption)
      (rustLines content) 0
  have herrors : (ClaudeTranscript.parse_transcript_with_context content).errors
      = (rustLines content).enum.filterMap (fun p => if p.2 = "" then none
          else match ClaudeTranscript.parse_transcript_line p.2 with
            | .ok _ => none
            | .error e => some ⟨p.1 + 1, p.2, e⟩) := by
    simp only [ClaudeTranscript.parse_transcript_with_context, h]
  refine ⟨hentries, herrors, ?_, ?_⟩
  · rw [hentries, ClaudeTranscript.entriesFilterMap_length]
    have := ClaudeTranscript.filter_nonempty_split (rustLines content)
    omega
  · rw [herrors]
    exact ClaudeTranscript.errorsFilterMap_length (rustLines content) 0

/-- C9: blank lines are neither entries nor errors, and do not shift the
1-based line numbers of errors: every error carries a non-empty line
found at its reported position among all lines (blanks included), and
entries and errors together account exactly for the non-empty lines. -/
theorem blank_lines_skipped_without_shifting (content : String) :
    (∀ err ∈ (ClaudeTranscript.parse_transcript_with_context content).errors,
        err.line_content ≠ ""
        ∧ (rustLines content).get? (err.line_number - 1) = some err.line_content)
    ∧ (ClaudeTranscript.parse_transcript_with_context content).entries.length
        + (ClaudeTranscript.parse_transcript_with_context content).errors.length
      = ((rustLines content).filter (fun l => decide (l ≠ ""))).length := by
  have h := ClaudeTranscript.parseWithContextLoop_spec (rustLines content).enum
  have herrors : (ClaudeTranscript.parse_transcript_with_context content).errors
      = (rustLines content).enum.filterMap (fun p => if p.2 = "" then none
          else match ClaudeTranscript.parse_transcript_line p.2 with
            | .ok _ => none
            | .error e => some ⟨p.1 + 1, p.2, e⟩) := by
    simp only [ClaudeTranscript.parse_transcript_with_context, h]
  have hentries : (ClaudeTranscript.parse_transcript_with_context content).entries
      = (rustLines content).filterMap (fun l => if l = "" then none
          else (ClaudeTranscript.parse_transcript_line l).toOption) := by
    simp only [ClaudeTranscript.parse_transcript_with_context, h]
    exact filterMap_enumFrom_snd
      (fun l => if l = "" then none else (ClaudeTranscript.parse_transcript_line l).toOption)
      (rustLines content) 0
  constructor
  · intro err hmem
    rw [herrors, List.mem_filterMap] at hmem
    obtain ⟨⟨i, l⟩, hmem2, hg⟩ := hmem
    by_cases hl : l = ""
    · simp [hl] at hg
    · rw [List.mk_mem_enum_iff_get?] at hmem2
      cases hp : ClaudeTranscript.parse_transcript_line l with
      | ok a => simp [hl, hp] at hg
      | error e =>
        simp only [hl, if_false, hp] at hg
        cases hg
        exact ⟨hl, by simpa using hmem2⟩
  · rw [hentries, herrors, ClaudeTranscript.entriesFilterMap_length]
    have h3 : (rustLines content).enum = List.enumFrom 0 (rustLines content) := rfl
    rw [h3, ClaudeTranscript.errorsFilterMap_length]
    have := ClaudeTranscript.filter_nonempty_split (rustLines content)
    omega

theorem collectEntries_all_ok (ls : List String)
    (h : ∀ l ∈ ls, l ≠ "" → (ClaudeTranscript.parse_transcript_line l).isOk) :
    ClaudeTranscript.collectEntries ls
      = .ok (ls.filterMap (fun l => if l = "" then none
          else (ClaudeTranscript.parse_transcript_line l).toOption)) := by
  induction ls with
  | nil => rfl
  | cons l rest ih =>
    have hrest := ih (fun l2 h2 hne => h l2 (List.mem_cons_of_mem _ h2) hne)
    simp only [ClaudeTranscript.collectEntries, List.filterMap_cons]
    by_cases hl : l = ""
    · simp [hl, hrest]
    · have hok := h l (List.mem_cons_self _ _) hl
      cases hp : ClaudeTranscript.parse_transcript_line l with
      | error e => rw [hp] at hok; simp [Except.isOk, Except.toBool] at hok
      | ok a =>
        simp [hl, hp, hrest, exceptToOption_ok, Bind.bind, Except.bind]

theorem collectEntries_first_error (pre : List String) (l : String) (post : List String)
    (e : String)
    (hpre : ∀ l2 ∈ pre, l2 ≠ "" → (ClaudeTranscript.parse_transcript_line l2).isOk)
    (hl : l ≠ "") (hp : ClaudeTranscript.parse_transcript_line l = .error e) :
    ClaudeTranscript.collectEntries (pre ++ l :: post) = .error e := by
  induction pre with
  | nil => simp [ClaudeTranscript.collectEntries, hl, hp, Bind.bind, Except.bind]
  | cons p rest ih =>
    have hrest := ih (fun l2 h2 hne => hpre l2 (List.mem_cons_of_mem _ h2) hne)
    simp only [List.cons_append, ClaudeTranscript.collectEntries]
    by_cases hpe : p = ""
    · simp [hpe, hrest]
    · have hok := hpre p (List.mem_cons_self _ _) hpe
      cases hq : ClaudeTranscript.parse_transcript_line p with
      | error e2 => rw [hq] at hok; simp [Except.isOk, Except.toBool] at hok
      | ok a => simp [hpe, hq, hrest, Bind.bind, Except.bind]

/-- C10: `parse_transcript` is all-or-nothing: if every non-empty line
decodes, it returns exactly those entries in input order; as soon as
some non-empty line fails (all earlier non-empty lines decoding), it
returns that first failing line's decode error and no entries at
all. -/
theorem parse_transcript_is_all_or_nothing (content : String) :
    ((∀ l ∈ rustLines content, l ≠ ""
        → (ClaudeTranscript.parse_transcript_line l).isOk)
      → ClaudeTranscript.parse_transcript content
          = .ok ((rustLines content).filterMap (fun l => if l = "" then none
              else (ClaudeTranscript.parse_transcript_line l).toOption)))
    ∧ ∀ pre l post e, rustLines content = pre ++ l :: post
        → (∀ l2 ∈ pre, l2 ≠ "" → (ClaudeTranscript.parse_transcript_line l2).isOk)
        → l ≠ ""
        → ClaudeTranscript.parse_transcript_line l = .error e
        → ClaudeTranscript.parse_transcript content = .error e := by
  constructor
  · intro h
    exact collectEntries_all_ok (rustLines content) h
  · intro pre l post e hsplit hpre hl hp
    unfold ClaudeTranscript.parse_transcript
    rw [hsplit]
    exact collectEntries_first_error pre l post e hpre hl hp

theorem blank_lines_skipped_witness :
    (("bad" : String) ≠ ""
      ∧ (rustLines "\n\nbad").get? (3 - 1) = some "bad")
    ∧ (ClaudeTranscript.parse_transcript_with_context "\n\nbad").entries.length
        + (ClaudeTranscript.parse_transcript_with_context "\n\nbad").errors.length
      = ((rustLines "\n\nbad").filter (fun l => decide (l ≠ ""))).length :=
  ⟨(blank_lines_skipped_without_shifting "\n\nbad").1
      ⟨3, "bad", "expected digit"⟩ (by decide),
    (blank_lines_skipped_without_shifting "\n\nbad").2⟩

theorem parse_transcript_all_or_nothing_witness :
    ClaudeTranscript.parse_transcript "x" = .error "expected digit" :=
  (parse_transcript_is_all_or_nothing "x").2 [] "x" [] "expected digit"
    (by decide) (by simp) (by decide) (by decide)

/-- C7: the spec's concrete scenario line decodes via
`parse_transcript_line` to a user entry, and `description` of that entry
is exactly `"User: hello"`. -/
theorem scenario_line_decodes_to_user_hello :
    TenxHooks.parse_transcript_line scenarioLine = .ok scenarioEntry
    ∧ TenxHooks.description scenarioEntry = "User: hello" := by
  constructor <;> decide

/-- C2: version-specific optional fields may be absent: a system entry
without `level` and `toolUseID` decodes with both fields `none` (shown
generically over all other field values and on a concrete line), and an
assistant entry without `requestId` but with `isApiErrorMessage` decodes
with `request_id` `none` (likewise). -/
theorem optional_fields_absent_still_decode :
    (∀ (uu ts ct cw si ve ut pu : String) (sc im : Bool),
      ClaudeTranscript.decodeTranscriptEntry (.obj [("type", .str "system"),
          ("uuid", .str uu), ("timestamp", .str ts), ("content", .str ct),
          ("cwd", .str cw), ("sessionId", .str si), ("version", .str ve),
          ("userType", .str ut), ("isSidechain", .bool sc), ("parentUuid", .str pu),
          ("isMeta", .bool im)])
        = .ok (.system ⟨uu, ts, ct, cw, si, ve, ut, sc, pu, im, none, none⟩))
    ∧ ClaudeTranscript.parse_transcript_line systemLineNoLevel
        = .ok (.system systemEntryNoLevel)
    ∧ (∀ (uu ts cw si ve ut pu mid mty mod : String) (sc b : Bool),
      ClaudeTranscript.decodeTranscriptEntry (.obj [("type", .str "assistant"),
          ("uuid", .str uu), ("timestamp", .str ts),
          ("message", .obj [("role", .str "assistant"), ("id", .str mid),
            ("type", .str mty), ("model", .str mod), ("stop_reason", .null),
            ("stop_sequence", .null), ("usage", .obj [])]),
          ("cwd", .str cw), ("sessionId", .str si), ("version", .str ve),
          ("userType", .str ut), ("isSidechain", .bool sc), ("parentUuid", .str pu),
          ("isApiErrorMessage", .bool b)])
        = .ok (.assistant ⟨uu, ts,
            .assistant mid mty mod none none none none none none
              ⟨none, none, none, none, none⟩,
            cw, si, ve, ut, sc, pu, none, some b⟩))
    ∧ ClaudeTranscript.parse_transcript_line assistantLineNoRequestId
        = .ok (.assistant assistantEntryNoRequestId) := by
  refine ⟨fun uu ts ct cw si ve ut pu sc im => rfl, by decide,
    fun uu ts cw si ve ut pu mid mty mod sc b => rfl, by decide⟩

/-- C6: decoding a `ContentBlock` dispatches on the `type` tag: any tag
outside `text`, `tool_use`, `tool_result`, `thinking` is a decode
failure, and each recognized tag decodes when the variant's required
fields are present. -/
theorem content_block_tag_dispatch :
    (∀ (fs : List (String × Json)) (t : String),
        jLookup fs "type" = some (.str t)
        → t ≠ "text" → t ≠ "tool_use" → t ≠ "tool_result" → t ≠ "thinking"
        → ∃ msg, ClaudeTranscript.decodeContentBlock (.obj fs) = .error msg)
    ∧ (∀ x, ClaudeTranscript.decodeContentBlock
        (.obj [("type", .str "text"), ("text", .str x)]) = .ok (.text x))
    ∧ (∀ i n v, ClaudeTranscript.decodeContentBlock
        (.obj [("type", .str "tool_use"), ("id", .str i), ("name", .str n),
          ("input", v)]) = .ok (.toolUse i n v))
    ∧ (∀ tu s, ClaudeTranscript.decodeContentBlock
        (.obj [("type", .str "tool_result"), ("tool_use_id", .str tu),
          ("content", .str s)]) = .ok (.toolResult tu (.text s) none))
    ∧ (∀ th, ClaudeTranscript.decodeContentBlock
        (.obj [("type", .str "thinking"), ("thinking", .str th)])
        = .ok (.thinking th none)) := by
  refine ⟨?_, fun x => rfl, fun i n v => rfl, fun tu s => rfl, fun th => rfl⟩
  intro fs t hlook h1 h2 h3 h4
  refine ⟨"unknown variant " ++ t, ?_⟩
  simp [ClaudeTranscript.decodeContentBlock, hlook, h1, h2, h3, h4]

theorem content_block_tag_dispatch_witness :
    ∃ msg, ClaudeTranscript.decodeContentBlock
      (.obj [("type", Json.str "image"), ("source", Json.str "s")]) = .error msg :=
  content_block_tag_dispatch.1 [("type", Json.str "image"), ("source", Json.str "s")]
    "image" (by decide) (by decide) (by decide) (by decide) (by decide)

theorem utf8ByteSizeGo_ge_length (cs : List Char) :
    cs.length ≤ String.utf8ByteSize.go cs := by
  induction cs with
  | nil => simp [String.utf8ByteSize.go]
  | cons c rest ih =>
    have := Char.utf8Size_pos c
    simp only [String.utf8ByteSize.go, List.length_cons]
    omega

/-- A string has at least as many UTF-8 bytes as characters. -/
theorem length_le_utf8ByteSize (s : String) : s.toList.length ≤ s.utf8ByteSize := by
  cases s with
  | mk data => simpa [String.utf8ByteSize, String.toList] using utf8ByteSizeGo_ge_length data

theorem mk_take_of_le (s : String) (h : s.toList.length ≤ 50) :
    String.mk (s.toList.take 50) = s := by
  cases s with
  | mk data => simp [String.toList] at h ⊢; simp [List.take_of_length_le h]

/-- C5 (amended): the description of a user entry is `"User: "` plus
the first 50 characters of the flattened content text, with `"..."`
appended if and only if the text's UTF-8 *byte* length exceeds 50
(`text.len()` in Rust counts bytes, the truncation counts characters);
a 60-character content always yields exactly the first 50 characters
followed by `"..."`, and `"No content"` stands in when content is
absent. -/
theorem user_description_truncation (e : TenxHooks.UserEntry) :
    (e.message.content = none
      → TenxHooks.description (.user e) = "User: No content")
    ∧ (∀ c, e.message.content = some c
      → TenxHooks.description (.user e)
        = "User: " ++ (if 50 < (TenxHooks.MessageContent.as_text c).utf8ByteSize
            then String.mk ((TenxHooks.MessageContent.as_text c).toList.take 50) ++ "..."
            else TenxHooks.MessageContent.as_text c))
    ∧ (∀ c, e.message.content = some c
      → (TenxHooks.MessageContent.as_text c).toList.length = 60
      → TenxHooks.description (.user e)
        = "User: " ++ String.mk ((TenxHooks.MessageContent.as_text c).toList.take 50)
            ++ "...") := by
  refine ⟨fun h => by simp [TenxHooks.description, h], ?_, ?_⟩
  · intro c hc
    by_cases hb : 50 < (TenxHooks.MessageContent.as_text c).utf8ByteSize
    · simp [TenxHooks.description, hc, hb]
    · have hlen : (TenxHooks.MessageContent.as_text c).toList.length ≤ 50 := by
        have := length_le_utf8ByteSize (TenxHooks.MessageContent.as_text c)
        omega
      simp only [TenxHooks.description, hc, hb, if_false]
      rw [mk_take_of_le _ hlen]
  · intro c hc hlen
    have hb : 50 < (TenxHooks.MessageContent.as_text c).utf8ByteSize := by
      have := length_le_utf8ByteSize (TenxHooks.MessageContent.as_text c)
      omega
    simp [TenxHooks.description, hc, hb, String.append_assoc]

theorem user_description_truncation_witness :
    TenxHooks.description sixtyCharUserEntry
      = "User: " ++ String.mk ((TenxHooks.MessageContent.as_text
          (.text (String.mk (List.replicate 60 'a')))).toList.take 50) ++ "..." :=
  (user_description_truncation
    ⟨"u", "t", ⟨some (.text (String.mk (List.replicate 60 'a'))), none, none, none,
      some "user", none, none, none, none, none, none⟩,
      "/x", "s", "1", "external", false, none, none⟩).2.2
    (.text (String.mk (List.replicate 60 'a'))) rfl (by decide)

/-- C5 (counterexample to the claim as stated): a user entry whose
flattened content is 26 two-byte characters — 26 ≤ 50 characters, so
nothing is truncated — still gets a trailing `"..."`, because the code
compares the byte length (52) with 50. -/
theorem user_description_ellipsis_without_truncation :
    (TenxHooks.MessageContent.as_text (.text wideText)).toList.length ≤ 50
    ∧ TenxHooks.description wideUserEntry ≠ "User: " ++ wideText
    ∧ TenxHooks.description wideUserEntry = "User: " ++ wideText ++ "..." := by
  refine ⟨by decide, by decide, by decide⟩

/-- C8: the description of an assistant entry is `"Assistant"` with the
clauses `": with thinking"`, `": N tool uses"` (N summing the dedicated
tool-use list and the tool-use blocks in content) and
`": N code outputs"` appended in this fixed order, each only when
applicable. -/
theorem assistant_description_fixed_clauses (e : TenxHooks.AssistantEntry) :
    TenxHooks.description (.assistant e)
      = "Assistant"
        ++ (if e.message.thinking.isSome then ": with thinking" else "")
        ++ (if 0 < (e.message.tool_uses.map List.length).getD 0
              + (e.message.content.map TenxHooks.MessageContent.count_tool_uses).getD 0
            then ": " ++ toString ((e.message.tool_uses.map List.length).getD 0
              + (e.message.content.map TenxHooks.MessageContent.count_tool_uses).getD 0)
              ++ " tool uses"
            else "")
        ++ (if 0 < (e.message.code_outputs.map List.length).getD 0
            then ": " ++ toString ((e.message.code_outputs.map List.length).getD 0)
              ++ " code outputs"
            else "") := by
  simp only [TenxHooks.description]
  by_cases ht : e.message.thinking.isSome = true <;>
    by_cases hn : 0 < (e.message.tool_uses.map List.length).getD 0
      + (e.message.content.map TenxHooks.MessageContent.count_tool_uses).getD 0 <;>
      by_cases hc : 0 < (e.message.code_outputs.map List.length).getD 0 <;>
        simp only [ht, hn, hc, if_true, if_false, Bool.false_eq_true] <;>
          (apply String.ext; simp [String.intercalate, String.intercalate.go])

theorem jLookup_of_keysDistinct (fs : List (String × Json)) (k : String) (v : Json)
    (hnd : keysDistinct fs = true) (hmem : (k, v) ∈ fs) : jLookup fs k = some v := by
  induction fs with
  | nil => cases hmem
  | cons p rest ih =>
    obtain ⟨k2, v2⟩ := p
    simp only [keysDistinct, Bool.and_eq_true] at hnd
    obtain ⟨hall, hrest⟩ := hnd
    simp only [jLookup]
    rcases List.mem_cons.mp hmem with heq | hmem2
    · cases heq; simp
    · have hne : k ≠ k2 := by
        have := List.all_eq_true.mp hall (k, v) hmem2
        simpa using this
      rw [if_neg (fun h => hne h.symm)]
      exact ih hrest hmem2

theorem noDupKeysFields_mem (fs : List (String × Json)) (k : String) (v : Json)
    (h : noDupKeysFields fs = true) (hmem : (k, v) ∈ fs) : noDupKeys v = true := by
  induction fs with
  | nil => cases hmem
  | cons p rest ih =>
    obtain ⟨k2, v2⟩ := p
    simp only [noDupKeysFields, Bool.and_eq_true] at h
    rcases List.mem_cons.mp hmem with heq | hmem2
    · cases heq; exact h.1
    · exact ih h.2 hmem2

theorem noDupKeysList_mem (xs : List Json) (x : Json)
    (h : noDupKeysList xs = true) (hmem : x ∈ xs) : noDupKeys x = true := by
  induction xs with
  | nil => cases hmem
  | cons y rest ih =>
    simp only [noDupKeysList, Bool.and_eq_true] at h
    rcases List.mem_cons.mp hmem with heq | hmem2
    · cases heq; exact h.1
    · exact ih h.2 hmem2

theorem missingInElems_self (xs : List Json) (i : Nat) (pfx : String)
    (h : ∀ x ∈ xs, ∀ p, findMissingFields x x p = []) :
    missingInElems xs xs i pfx = [] := by
  induction xs generalizing i pfx with
  | nil => rfl
  | cons x rest ih =>
    simp only [missingInElems]
    rw [h x (List.mem_cons_self _ _), ih (i + 1) pfx
      (fun y hy p => h y (List.mem_cons_of_mem _ hy) p)]
    rfl

theorem missingInFields_self (iter gs : List (String × Json)) (pfx : String)
    (hsub : ∀ p ∈ iter, jLookup gs p.1 = some p.2 ∧ ∀ q, findMissingFields p.2 p.2 q = []) :
    missingInFields iter gs pfx = [] := by
  induction iter generalizing pfx with
  | nil => rfl
  | cons p rest ih =>
    obtain ⟨k, v⟩ := p
    obtain ⟨hlook, hfmf⟩ := hsub (k, v) (List.mem_cons_self _ _)
    simp only [missingInFields, hlook]
    rw [ih pfx (fun q hq => hsub q (List.mem_cons_of_mem _ hq))]
    simp [hfmf]

theorem sizeOf_lt_of_mem_fields (fs : List (String × Json)) (k : String) (v : Json)
    (hmem : (k, v) ∈ fs) : sizeOf v < sizeOf (Json.obj fs) := by
  have h1 := List.sizeOf_lt_of_mem hmem
  simp only [Json.obj.sizeOf_spec]
  simp only [Prod.mk.sizeOf_spec] at h1
  omega

theorem sizeOf_lt_of_mem_elems (xs : List Json) (x : Json)
    (hmem : x ∈ xs) : sizeOf x < sizeOf (Json.arr xs) := by
  have h1 := List.sizeOf_lt_of_mem hmem
  simp only [Json.arr.sizeOf_spec]
  omega

theorem findMissingFields_self_bounded :
    ∀ (n : Nat) (j : Json), sizeOf j ≤ n → noDupKeys j = true →
      ∀ pfx, findMissingFields j j pfx = [] := by
  intro n
  induction n with
  | zero =>
    intro j hsz
    cases j <;> simp at hsz
  | succ n ih =>
    intro j hsz hnd pfx
    cases j with
    | null => rfl
    | bool b => rfl
    | num m => rfl
    | str s => rfl
    | arr xs =>
      simp only [findMissingFields]
      refine missingInElems_self xs 0 pfx (fun x hx p => ?_)
      have hlt := sizeOf_lt_of_mem_elems xs x hx
      have hx2 : noDupKeys x = true := by
        simp only [noDupKeys] at hnd
        exact noDupKeysList_mem xs x hnd hx
      exact ih x (by omega) hx2 p
    | obj fs =>
      simp only [findMissingFields]
      simp only [noDupKeys, Bool.and_eq_true] at hnd
      refine missingInFields_self fs fs pfx (fun p hp => ?_)
      obtain ⟨k, v⟩ := p
      have hlt := sizeOf_lt_of_mem_fields fs k v hp
      refine ⟨jLookup_of_keysDistinct fs k v hnd.1 hp, fun q => ?_⟩
      exact ih v (by omega) (noDupKeysFields_mem fs k v hnd.2 hp) q

/-- C3: `findMissingFields` walks raw and round-tripped JSON in
lock-step: it returns the empty sequence whenever raw equals the
round-trip structurally (any duplicate-key-free value compared with
itself); it reports an unmodeled root-level key by name (the spec's
summary example, shown against the actual decode/re-serialize
round-trip); and it reports an unmodeled nested key by its dotted path
`message.unknownNested`, not merely `message`. -/
theorem find_missing_fields_lockstep :
    (∀ (j : Json), noDupKeys j = true → ∀ pfx, findMissingFields j j pfx = [])
    ∧ ClaudeTranscript.decodeTranscriptEntry summaryRawWithExtra
        = .ok (.summary ⟨"x", "y"⟩)
    ∧ ClaudeTranscript.serializeTranscriptEntry (.summary ⟨"x", "y"⟩)
        = summaryTypedRoundTrip
    ∧ findMissingFields summaryRawWithExtra summaryTypedRoundTrip "" = ["extra"]
    ∧ findMissingFields nestedRawExample nestedTypedRoundTrip ""
        = ["message.unknownNested"] :=
  ⟨fun j hnd pfx => findMissingFields_self_bounded (sizeOf j) j (Nat.le_refl _) hnd pfx,
    by decide, by decide, by decide, by decide⟩

theorem find_missing_fields_lockstep_witness :
    findMissingFields nestedRawExample nestedRawExample "pfx." = [] :=
  find_missing_fields_lockstep.1 nestedRawExample (by decide) "pfx."

theorem dString_eq {j : Json} {s : String} (h : dString j = .ok s) : j = .str s := by
  cases j <;> simp [dString] at h; rw [h]

theorem dBool_eq {j : Json} {b : Bool} (h : dBool j = .ok b) : j = .bool b := by
  cases j <;> simp [dBool] at h; rw [h]

theorem dNat64_eq {j : Json} {n : Nat} (h : dNat64 j = .ok n) : j = .num (n : Int) := by
  cases j with
  | num m =>
    simp only [dNat64] at h
    split at h
    · next hcond =>
      injection h with h2
      subst h2
      rw [Int.toNat_of_nonneg hcond.1]
    · cases h
  | null => simp [dNat64] at h
  | bool b => simp [dNat64] at h
  | str s => simp [dNat64] at h
  | arr xs => simp [dNat64] at h
  | obj fs2 => simp [dNat64] at h

theorem dValue_eq {j v : Json} (h : dValue j = .ok v) : j = v := by
  simpa [dValue] using h

theorem reqF_some {α : Type} {fs : List (String × Json)} {k : String}
    {d : Json → Except String α} {a : α} (h : reqF fs k d = .ok a) :
    ∃ v, jLookup fs k = some v ∧ d v = .ok a := by
  cases hl : jLookup fs k with
  | none => simp [reqF, hl] at h
  | some v => simp only [reqF, hl] at h; exact ⟨v, rfl, h⟩

theorem optF_none {α : Type} {fs : List (String × Json)} {k : String}
    {d : Json → Except String α} (h : optF fs k d = .ok none) :
    jLookup fs k = none ∨ jLookup fs k = some .null := by
  cases hl : jLookup fs k with
  | none => exact Or.inl rfl
  | some v =>
    simp only [optF, hl] at h
    split at h
    · next hv => exact Or.inr (by rw [hv])
    · exfalso
      cases hd : d v <;> rw [hd] at h <;> simp [Except.map] at h

theorem optF_some {α : Type} {fs : List (String × Json)} {k : String}
    {d : Json → Except String α} {a : α} (h : optF fs k d = .ok (some a)) :
    ∃ v, jLookup fs k = some v ∧ d v = .ok a := by
  cases hl : jLookup fs k with
  | none => simp [optF, hl] at h
  | some v =>
    simp only [optF, hl] at h
    split at h
    · simp at h
    · cases hd : d v with
      | error e => rw [hd] at h; simp [Except.map] at h
      | ok b =>
        rw [hd] at h
        simp only [Except.map] at h
        injection h with h2
        injection h2 with h3
        exact ⟨v, rfl, by rw [hd, h3]⟩

theorem jLookup_mem {fs : List (String × Json)} {k : String} {v : Json}
    (h : jLookup fs k = some v) : (k, v) ∈ fs := by
  induction fs with
  | nil => cases h
  | cons p rest ih =>
    obtain ⟨k2, v2⟩ := p
    simp only [jLookup] at h
    split at h
    · next heq => injection h with h2; subst h2; subst heq; exact List.mem_cons_self _ _
    · exact List.mem_cons_of_mem _ (ih h)

theorem shapePreservedList_self (xs : List Json)
    (h : ∀ x ∈ xs, shapePreserved true x x = true) :
    shapePreservedList true xs xs = true := by
  induction xs with
  | nil => rfl
  | cons x rest ih =>
    simp only [shapePreservedList, Bool.and_eq_true]
    exact ⟨h x (List.mem_cons_self _ _),
      ih (fun y hy => h y (List.mem_cons_of_mem _ hy))⟩

theorem shapePreservedFields_self (iter gs : List (String × Json))
    (hsub : ∀ p ∈ iter, jLookup gs p.1 = some p.2 ∧ shapePreserved true p.2 p.2 = true) :
    shapePreservedFields true iter gs = true := by
  induction iter with
  | nil => rfl
  | cons p rest ih =>
    obtain ⟨k, v⟩ := p
    obtain ⟨hlook, hsp⟩ := hsub (k, v) (List.mem_cons_self _ _)
    simp only [shapePreservedFields, hlook, Bool.and_eq_true]
    exact ⟨hsp, ih (fun q hq => hsub q (List.mem_cons_of_mem _ hq))⟩

theorem shapePreserved_self_bounded :
    ∀ (n : Nat) (j : Json), sizeOf j ≤ n → noDupKeys j = true →
      shapePreserved true j j = true := by
  intro n
  induction n with
  | zero =>
    intro j hsz
    cases j <;> simp at hsz
  | succ n ih =>
    intro j hsz hnd
    cases j with
    | null => rfl
    | bool b => simp [shapePreserved]
    | num m => simp [shapePreserved]
    | str s => simp [shapePreserved]
    | arr xs =>
      simp only [shapePreserved]
      refine shapePreservedList_self xs (fun x hx => ?_)
      have hlt := sizeOf_lt_of_mem_elems xs x hx
      simp only [noDupKeys] at hnd
      exact ih x (by omega) (noDupKeysList_mem xs x hnd hx)
    | obj fs =>
      simp only [shapePreserved]
      simp only [noDupKeys, Bool.and_eq_true] at hnd
      refine shapePreservedFields_self fs fs (fun p hp => ?_)
      obtain ⟨k, v⟩ := p
      have hlt := sizeOf_lt_of_mem_fields fs k v hp
      exact ⟨jLookup_of_keysDistinct fs k v hnd.1 hp,
        ih v (by omega) (noDupKeysFields_mem fs k v hnd.2 hp)⟩

/-- `shapePreserved true` self-comparison for duplicate-key-free values. -/
theorem shapePreserved_self (j : Json) (hnd : noDupKeys j = true) :
    shapePreserved true j j = true :=
  shapePreserved_self_bounded (sizeOf j) j (Nat.le_refl _) hnd

theorem spf_nil (fs : List (String × Json)) :
    shapePreservedFields true [] fs = true := rfl

theorem spf_cons_tag {fs rest : List (String × Json)} {k t : String}
    (h : jLookup fs k = some (.str t))
    (hrest : shapePreservedFields true rest fs = true) :
    shapePreservedFields true ((k, .str t) :: rest) fs = true := by
  simp [shapePreservedFields, h, shapePreserved, hrest]

theorem spf_cons_req_str {fs rest : List (String × Json)} {k s : String}
    (h : reqF fs k dString = .ok s)
    (hrest : shapePreservedFields true rest fs = true) :
    shapePreservedFields true ((k, .str s) :: rest) fs = true := by
  obtain ⟨v, hl, hd⟩ := reqF_some h
  cases dString_eq hd
  simp [shapePreservedFields, hl, shapePreserved, hrest]

theorem spf_cons_req_bool {fs rest : List (String × Json)} {k : String} {b : Bool}
    (h : reqF fs k dBool = .ok b)
    (hrest : shapePreservedFields true rest fs = true) :
    shapePreservedFields true ((k, .bool b) :: rest) fs = true := by
  obtain ⟨v, hl, hd⟩ := reqF_some h
  cases dBool_eq hd
  simp [shapePreservedFields, hl, shapePreserved, hrest]

theorem spf_cons_req_value {fs rest : List (String × Json)} {k : String} {a : Json}
    (h : reqF fs k dValue = .ok a) (hnd : noDupKeysFields fs = true)
    (hrest : shapePreservedFields true rest fs = true) :
    shapePreservedFields true ((k, a) :: rest) fs = true := by
  obtain ⟨v, hl, hd⟩ := reqF_some h
  have hself := shapePreserved_self v (noDupKeysFields_mem fs k v hnd (jLookup_mem hl))
  cases dValue_eq hd
  simp [shapePreservedFields, hl, hself, hrest]

theorem spf_cons_req_nested {α : Type} {fs rest : List (String × Json)} {k : String}
    {d : Json → Except String α} {enc : α → Json} {a : α}
    (h : reqF fs k d = .ok a) (hnd : noDupKeysFields fs = true)
    (hcov : ∀ v, noDupKeys v = true → d v = .ok a → shapePreserved true (enc a) v = true)
    (hrest : shapePreservedFields true rest fs = true) :
    shapePreservedFields true ((k, enc a) :: rest) fs = true := by
  obtain ⟨v, hl, hd⟩ := reqF_some h
  have hv := hcov v (noDupKeysFields_mem fs k v hnd (jLookup_mem hl)) hd
  simp [shapePreservedFields, hl, hv, hrest]

theorem spf_cons_opt_noskip_str {fs rest : List (String × Json)} {k : String}
    {o : Option String} (h : optF fs k dString = .ok o)
    (hrest : shapePreservedFields true rest fs = true) :
    shapePreservedFields true ((k, encOptStr o) :: rest) fs = true := by
  cases o with
  | none =>
    rcases optF_none h with hl | hl <;>
      simp [shapePreservedFields, hl, shapePreserved, encOptStr, hrest]
  | some s =>
    obtain ⟨v, hl, hd⟩ := optF_some h
    cases dString_eq hd
    simp [shapePreservedFields, hl, shapePreserved, encOptStr, hrest]

theorem spf_append_split {a b fs : List (String × Json)}
    (ha : shapePreservedFields true a fs = true)
    (hb : shapePreservedFields true b fs = true) :
    shapePreservedFields true (a ++ b) fs = true := by
  induction a with
  | nil => exact hb
  | cons p rest ih =>
    obtain ⟨k, v⟩ := p
    simp only [shapePreservedFields, Bool.and_eq_true] at ha ⊢
    exact ⟨ha.1, ih ha.2⟩

theorem spf_optPair_str {fs : List (String × Json)} {k : String}
    {o : Option String} (h : optF fs k dString = .ok o) :
    shapePreservedFields true (optPair k (o.map Json.str)) fs = true := by
  cases o with
  | none => rfl
  | some s =>
    obtain ⟨v, hl, hd⟩ := optF_some h
    cases dString_eq hd
    simp [optPair, shapePreservedFields, hl, shapePreserved]

theorem spf_optPair_bool {fs : List (String × Json)} {k : String}
    {o : Option Bool} (h : optF fs k dBool = .ok o) :
    shapePreservedFields true (optPair k (o.map Json.bool)) fs = true := by
  cases o with
  | none => rfl
  | some b =>
    obtain ⟨v, hl, hd⟩ := optF_some h
    cases dBool_eq hd
    simp [optPair, shapePreservedFields, hl, shapePreserved]

theorem spf_optPair_nat {fs : List (String × Json)} {k : String}
    {o : Option Nat} (h : optF fs k dNat64 = .ok o) :
    shapePreservedFields true (optPair k (o.map fun n => Json.num (n : Int))) fs
      = true := by
  cases o with
  | none => rfl
  | some m =>
    obtain ⟨v, hl, hd⟩ := optF_some h
    cases dNat64_eq hd
    simp [optPair, shapePreservedFields, hl, shapePreserved]

theorem spf_optPair_value {fs : List (String × Json)} {k : String}
    {o : Option Json} (h : optF fs k dValue = .ok o) (hnd : noDupKeysFields fs = true) :
    shapePreservedFields true (optPair k o) fs = true := by
  cases o with
  | none => rfl
  | some a =>
    obtain ⟨v, hl, hd⟩ := optF_some h
    have hself := shapePreserved_self v (noDupKeysFields_mem fs k v hnd (jLookup_mem hl))
    cases dValue_eq hd
    simp [optPair, shapePreservedFields, hl, hself]

theorem spf_optPair_nested {α : Type} {fs : List (String × Json)} {k : String}
    {d : Json → Except String α} {enc : α → Json} {o : Option α}
    (h : optF fs k d = .ok o) (hnd : noDupKeysFields fs = true)
    (hcov : ∀ v a, d v = .ok a → noDupKeys v = true → shapePreserved true (enc a) v = true) :
    shapePreservedFields true (optPair k (o.map enc)) fs = true := by
  cases o with
  | none => rfl
  | some a =>
    obtain ⟨v, hl, hd⟩ := optF_some h
    have hv := hcov v a hd (noDupKeysFields_mem fs k v hnd (jLookup_mem hl))
    simp [optPair, shapePreservedFields, hl, hv]

theorem usage_covers (j : Json) (u : ClaudeTranscript.UsageInfo)
    (h : ClaudeTranscript.decodeUsageInfo j = .ok u) (hnd : noDupKeys j = true) :
    shapePreserved true (ClaudeTranscript.serializeUsageInfo u) j = true := by
  cases j with
  | obj fs =>
    simp only [noDupKeys, Bool.and_eq_true] at hnd
    simp only [ClaudeTranscript.decodeUsageInfo, bind, Except.bind] at h
    cases h1 : optF fs "cache_creation_input_tokens" dNat64 with
    | error e => rw [h1] at h; cases h
    | ok cc =>
    rw [h1] at h
    cases h2 : optF fs "cache_read_input_tokens" dNat64 with
    | error e => rw [h2] at h; cases h
    | ok cr =>
    rw [h2] at h
    cases h3 : optF fs "input_tokens" dNat64 with
    | error e => rw [h3] at h; cases h
    | ok it =>
    rw [h3] at h
    cases h4 : optF fs "output_tokens" dNat64 with
    | error e => rw [h4] at h; cases h
    | ok ot =>
    rw [h4] at h
    cases h5 : optF fs "service_tier" dString with
    | error e => rw [h5] at h; cases h
    | ok st =>
    rw [h5] at h
    cases h
    simp only [ClaudeTranscript.serializeUsageInfo, shapePreserved]
    exact spf_append_split (spf_append_split (spf_append_split (spf_append_split
      (spf_optPair_nat h1) (spf_optPair_nat h2)) (spf_optPair_nat h3))
      (spf_optPair_nat h4)) (spf_optPair_str h5)
  | null => cases h
  | bool b => cases h
  | num m => cases h
  | str s => cases h
  | arr xs => cases h

theorem decodeList_covers {α : Type} (d : Json → Except String α) (enc : α → Json)
    (hcov : ∀ j a, d j = .ok a → noDupKeys j = true → shapePreserved true (enc a) j = true)
    (xs : List Json) (as : List α) (h : decodeList d xs = .ok as)
    (hnd : noDupKeysList xs = true) :
    shapePreservedList true (as.map enc) xs = true := by
  induction xs generalizing as with
  | nil => cases h; rfl
  | cons x rest ih =>
    simp only [decodeList, bind, Except.bind] at h
    cases h1 : d x with
    | error e => rw [h1] at h; cases h
    | ok a =>
    rw [h1] at h
    cases h2 : decodeList d rest with
    | error e => rw [h2] at h; cases h
    | ok rest2 =>
    rw [h2] at h
    cases h
    simp only [noDupKeysList, Bool.and_eq_true] at hnd
    simp only [List.map_cons, shapePreservedList, Bool.and_eq_true]
    exact ⟨hcov x a h1 hnd.1, ih rest2 h2 hnd.2⟩

theorem toolResultItem_covers (j : Json) (i : ClaudeTranscript.ToolResultItem)
    (h : ClaudeTranscript.decodeToolResultItem j = .ok i) (hnd : noDupKeys j = true) :
    shapePreserved true (ClaudeTranscript.serializeToolResultItem i) j = true := by
  cases j with
  | obj fs =>
    simp only [ClaudeTranscript.decodeToolResultItem, bind, Except.bind] at h
    cases h1 : reqF fs "type" dString with
    | error e => rw [h1] at h; cases h
    | ok t =>
    rw [h1] at h
    cases h2 : reqF fs "text" dString with
    | error e => rw [h2] at h; cases h
    | ok x =>
    rw [h2] at h
    cases h
    simp only [ClaudeTranscript.serializeToolResultItem, shapePreserved]
    exact spf_cons_req_str h1 (spf_cons_req_str h2 (spf_nil fs))
  | null => cases h
  | bool b => cases h
  | num m => cases h
  | str s => cases h
  | arr xs => cases h

theorem toolResultContent_covers (j : Json) (c : ClaudeTranscript.ToolResultContent)
    (h : ClaudeTranscript.decodeToolResultContent j = .ok c) (hnd : noDupKeys j = true) :
    shapePreserved true (ClaudeTranscript.serializeToolResultContent c) j = true := by
  cases j with
  | str s =>
    cases h
    simp [ClaudeTranscript.serializeToolResultContent, shapePreserved]
  | arr xs =>
    simp only [ClaudeTranscript.decodeToolResultContent] at h
    cases hd : decodeList ClaudeTranscript.decodeToolResultItem xs with
    | error e => rw [hd] at h; cases h
    | ok items =>
    rw [hd] at h
    cases h
    simp only [ClaudeTranscript.serializeToolResultContent, shapePreserved]
    simp only [noDupKeys] at hnd
    exact decodeList_covers ClaudeTranscript.decodeToolResultItem
      ClaudeTranscript.serializeToolResultItem toolResultItem_covers xs items hd hnd
  | null => cases h
  | bool b => cases h
  | num m => cases h
  | obj fs => cases h

theorem toolUse_covers (j : Json) (t : ClaudeTranscript.ToolUse)
    (h : ClaudeTranscript.decodeToolUse j = .ok t) (hnd : noDupKeys j = true) :
    shapePreserved true (ClaudeTranscript.serializeToolUse t) j = true := by
  cases j with
  | obj fs =>
    simp only [noDupKeys, Bool.and_eq_true] at hnd
    simp only [ClaudeTranscript.decodeToolUse, bind, Except.bind] at h
    cases h1 : reqF fs "toolName" dString with
    | error e => rw [h1] at h; cases h
    | ok tn =>
    rw [h1] at h
    cases h2 : reqF fs "toolInput" dValue with
    | error e => rw [h2] at h; cases h
    | ok ti =>
    rw [h2] at h
    cases h3 : optF fs "toolOutput" dValue with
    | error e => rw [h3] at h; cases h
    | ok to2 =>
    rw [h3] at h
    cases h
    simp only [ClaudeTranscript.serializeToolUse, shapePreserved]
    exact spf_append_split
      (spf_cons_req_str h1 (spf_cons_req_value h2 hnd.2 (spf_nil fs)))
      (spf_optPair_value h3 hnd.2)
  | null => cases h
  | bool b => cases h
  | num m => cases h
  | str s => cases h
  | arr xs => cases h

theorem codeOutput_covers (j : Json) (c : ClaudeTranscript.CodeOutput)
    (h : ClaudeTranscript.decodeCodeOutput j = .ok c) (hnd : noDupKeys j = true) :
    shapePreserved true (ClaudeTranscript.serializeCodeOutput c) j = true := by
  cases j with
  | obj fs =>
    simp only [ClaudeTranscript.decodeCodeOutput, bind, Except.bind] at h
    cases h1 : reqF fs "code" dString with
    | error e => rw [h1] at h; cases h
    | ok cc =>
    rw [h1] at h
    cases h2 : optF fs "output" dString with
    | error e => rw [h2] at h; cases h
    | ok oo =>
    rw [h2] at h
    cases h3 : optF fs "language" dString with
    | error e => rw [h3] at h; cases h
    | ok ll =>
    rw [h3] at h
    cases h
    simp only [ClaudeTranscript.serializeCodeOutput, shapePreserved]
    exact spf_append_split (spf_append_split
      (spf_cons_req_str h1 (spf_nil fs)) (spf_optPair_str h2)) (spf_optPair_str h3)
  | null => cases h
  | bool b => cases h
  | num m => cases h
  | str s => cases h
  | arr xs => cases h

theorem contentBlock_covers (j : Json) (b : ClaudeTranscript.ContentBlock)
    (h : ClaudeTranscript.decodeContentBlock j = .ok b) (hnd : noDupKeys j = true) :
    shapePreserved true (ClaudeTranscript.serializeContentBlock b) j = true := by
  cases j with
  | obj fs =>
    simp only [noDupKeys, Bool.and_eq_true] at hnd
    cases hl : jLookup fs "type" with
    | none => simp only [ClaudeTranscript.decodeContentBlock, hl] at h; cases h
    | some tv =>
    cases tv with
    | str t =>
      simp only [ClaudeTranscript.decodeContentBlock, hl, bind, Except.bind] at h
      by_cases ht1 : t = "text"
      · rw [if_pos ht1] at h
        rw [ht1] at hl
        cases h1 : reqF fs "text" dString with
        | error e => rw [h1] at h; cases h
        | ok x =>
        rw [h1] at h
        cases h
        simp only [ClaudeTranscript.serializeContentBlock, shapePreserved]
        exact spf_cons_tag hl (spf_cons_req_str h1 (spf_nil fs))
      · rw [if_neg ht1] at h
        by_cases ht2 : t = "tool_use"
        · rw [if_pos ht2] at h
          rw [ht2] at hl
          cases h1 : reqF fs "id" dString with
          | error e => rw [h1] at h; cases h
          | ok i =>
          rw [h1] at h
          cases h2 : reqF fs "name" dString with
          | error e => rw [h2] at h; cases h
          | ok n =>
          rw [h2] at h
          cases h3 : reqF fs "input" dValue with
          | error e => rw [h3] at h; cases h
          | ok inp =>
          rw [h3] at h
          cases h
          simp only [ClaudeTranscript.serializeContentBlock, shapePreserved]
          exact spf_cons_tag hl (spf_cons_req_str h1 (spf_cons_req_str h2
            (spf_cons_req_value h3 hnd.2 (spf_nil fs))))
        · rw [if_neg ht2] at h
          by_cases ht3 : t = "tool_result"
          · rw [if_pos ht3] at h
            rw [ht3] at hl
            cases h1 : reqF fs "tool_use_id" dString with
            | error e => rw [h1] at h; cases h
            | ok tu =>
            rw [h1] at h
            cases h2 : reqF fs "content" ClaudeTranscript.decodeToolResultContent with
            | error e => rw [h2] at h; cases h
            | ok c =>
            rw [h2] at h
            cases h3 : optF fs "is_error" dBool with
            | error e => rw [h3] at h; cases h
            | ok ie =>
            rw [h3] at h
            cases h
            simp only [ClaudeTranscript.serializeContentBlock, shapePreserved]
            exact spf_append_split
              (spf_cons_tag hl (spf_cons_req_str h1 (spf_cons_req_nested h2 hnd.2
                (fun v hv hdv => toolResultContent_covers v c hdv hv) (spf_nil fs))))
              (spf_optPair_bool h3)
          · rw [if_neg ht3] at h
            by_cases ht4 : t = "thinking"
            · rw [if_pos ht4] at h
              rw [ht4] at hl
              cases h1 : reqF fs "thinking" dString with
              | error e => rw [h1] at h; cases h
              | ok th =>
              rw [h1] at h
              cases h2 : optF fs "signature" dString with
              | error e => rw [h2] at h; cases h
              | ok sg =>
              rw [h2] at h
              cases h
              simp only [ClaudeTranscript.serializeContentBlock, shapePreserved]
              exact spf_append_split
                (spf_cons_tag hl (spf_cons_req_str h1 (spf_nil fs)))
                (spf_optPair_str h2)
            · rw [if_neg ht4] at h
              cases h
    | null => simp only [ClaudeTranscript.decodeContentBlock, hl] at h; cases h
    | bool b2 => simp only [ClaudeTranscript.decodeContentBlock, hl] at h; cases h
    | num m => simp only [ClaudeTranscript.decodeContentBlock, hl] at h; cases h
    | arr xs => simp only [ClaudeTranscript.decodeContentBlock, hl] at h; cases h
    | obj fs2 => simp only [ClaudeTranscript.decodeContentBlock, hl] at h; cases h
  | null => cases h
  | bool b2 => cases h
  | num m => cases h
  | str s => cases h
  | arr xs => cases h

theorem messageContent_covers (j : Json) (c : ClaudeTranscript.MessageContent)
    (h : ClaudeTranscript.decodeMessageContent j = .ok c) (hnd : noDupKeys j = true) :
    shapePreserved true (ClaudeTranscript.serializeMessageContent c) j = true := by
  cases j with
  | str s =>
    cases h
    simp [ClaudeTranscript.serializeMessageContent, shapePreserved]
  | arr xs =>
    simp only [ClaudeTranscript.decodeMessageContent] at h
    cases hd : decodeList ClaudeTranscript.decodeContentBlock xs with
    | error e => rw [hd] at h; cases h
    | ok bs =>
    rw [hd] at h
    cases h
    simp only [ClaudeTranscript.serializeMessageContent, shapePreserved]
    simp only [noDupKeys] at hnd
    exact decodeList_covers ClaudeTranscript.decodeContentBlock
      ClaudeTranscript.serializeContentBlock contentBlock_covers xs bs hd hnd
  | null => cases h
  | bool b => cases h
  | num m => cases h
  | obj fs => cases h

theorem toolUses_covers (j : Json) (l : List ClaudeTranscript.ToolUse)
    (h : ClaudeTranscript.decodeToolUses j = .ok l) (hnd : noDupKeys j = true) :
    shapePreserved true (Json.arr (l.map ClaudeTranscript.serializeToolUse)) j = true := by
  cases j with
  | arr xs =>
    simp only [ClaudeTranscript.decodeToolUses] at h
    simp only [noDupKeys] at hnd
    simp only [shapePreserved]
    exact decodeList_covers ClaudeTranscript.decodeToolUse
      ClaudeTranscript.serializeToolUse toolUse_covers xs l h hnd
  | null => cases h
  | bool b => cases h
  | num m => cases h
  | str s => cases h
  | obj fs => cases h

theorem codeOutputs_covers (j : Json) (l : List ClaudeTranscript.CodeOutput)
    (h : ClaudeTranscript.decodeCodeOutputs j = .ok l) (hnd : noDupKeys j = true) :
    shapePreserved true (Json.arr (l.map ClaudeTranscript.serializeCodeOutput)) j = true := by
  cases j with
  | arr xs =>
    simp only [ClaudeTranscript.decodeCodeOutputs] at h
    simp only [noDupKeys] at hnd
    simp only [shapePreserved]
    exact decodeList_covers ClaudeTranscript.decodeCodeOutput
      ClaudeTranscript.serializeCodeOutput codeOutput_covers xs l h hnd
  | null => cases h
  | bool b => cases h
  | num m => cases h
  | str s => cases h
  | obj fs => cases h

theorem message_covers (j : Json) (m : ClaudeTranscript.TranscriptMessage)
    (h : ClaudeTranscript.decodeTranscriptMessage j = .ok m) (hnd : noDupKeys j = true) :
    shapePreserved true (ClaudeTranscript.serializeTranscriptMessage m) j = true := by
  cases j with
  | obj fs =>
    simp only [noDupKeys, Bool.and_eq_true] at hnd
    cases hl : jLookup fs "role" with
    | none => simp only [ClaudeTranscript.decodeTranscriptMessage, hl] at h; cases h
    | some rv =>
    cases rv with
    | str r =>
      simp only [ClaudeTranscript.decodeTranscriptMessage, hl, bind, Except.bind] at h
      by_cases hr1 : r = "user"
      · rw [if_pos hr1] at h
        rw [hr1] at hl
        cases h1 : optF fs "content" ClaudeTranscript.decodeMessageContent with
        | error e => rw [h1] at h; cases h
        | ok c =>
        rw [h1] at h
        cases h
        simp only [ClaudeTranscript.serializeTranscriptMessage, shapePreserved]
        exact spf_append_split (spf_cons_tag hl (spf_nil fs))
          (spf_optPair_nested h1 hnd.2
            (fun v a hdv hv => messageContent_covers v a hdv hv))
      · rw [if_neg hr1] at h
        by_cases hr2 : r = "assistant"
        · rw [if_pos hr2] at h
          rw [hr2] at hl
          cases h1 : reqF fs "id" dString with
          | error e => rw [h1] at h; cases h
          | ok i =>
          rw [h1] at h
          cases h2 : reqF fs "type" dString with
          | error e => rw [h2] at h; cases h
          | ok mt =>
          rw [h2] at h
          cases h3 : reqF fs "model" dString with
          | error e => rw [h3] at h; cases h
          | ok md =>
          rw [h3] at h
          cases h4 : optF fs "content" ClaudeTranscript.decodeMessageContent with
          | error e => rw [h4] at h; cases h
          | ok c =>
          rw [h4] at h
          cases h5 : optF fs "thinking" dString with
          | error e => rw [h5] at h; cases h
          | ok th =>
          rw [h5] at h
          cases h6 : optF fs "tool_uses" ClaudeTranscript.decodeToolUses with
          | error e => rw [h6] at h; cases h
          | ok tu =>
          rw [h6] at h
          cases h7 : optF fs "code_outputs" ClaudeTranscript.decodeCodeOutputs with
          | error e => rw [h7] at h; cases h
          | ok co =>
          rw [h7] at h
          cases h8 : optF fs "stop_reason" dString with
          | error e => rw [h8] at h; cases h
          | ok sr =>
          rw [h8] at h
          cases h9 : optF fs "stop_sequence" dString with
          | error e => rw [h9] at h; cases h
          | ok ss =>
          rw [h9] at h
          cases h10 : reqF fs "usage" ClaudeTranscript.decodeUsageInfo with
          | error e => rw [h10] at h; cases h
          | ok us =>
          rw [h10] at h
          cases h
          simp only [ClaudeTranscript.serializeTranscriptMessage, shapePreserved]
          exact spf_append_split (spf_append_split (spf_append_split (spf_append_split
            (spf_append_split
              (spf_cons_tag hl (spf_cons_req_str h1 (spf_cons_req_str h2
                (spf_cons_req_str h3 (spf_nil fs)))))
              (spf_optPair_nested h4 hnd.2
                (fun v a hdv hv => messageContent_covers v a hdv hv)))
            (spf_optPair_str h5))
            (spf_optPair_nested h6 hnd.2 (fun v a hdv hv => toolUses_covers v a hdv hv)))
            (spf_optPair_nested h7 hnd.2 (fun v a hdv hv => codeOutputs_covers v a hdv hv)))
            (spf_cons_opt_noskip_str h8 (spf_cons_opt_noskip_str h9
              (spf_cons_req_nested h10 hnd.2
                (fun v hv hdv => usage_covers v us hdv hv) (spf_nil fs))))
        · rw [if_neg hr2] at h
          cases h
    | null => simp only [ClaudeTranscript.decodeTranscriptMessage, hl] at h; cases h
    | bool b2 => simp only [ClaudeTranscript.decodeTranscriptMessage, hl] at h; cases h
    | num m2 => simp only [ClaudeTranscript.decodeTranscriptMessage, hl] at h; cases h
    | arr xs => simp only [ClaudeTranscript.decodeTranscriptMessage, hl] at h; cases h
    | obj fs2 => simp only [ClaudeTranscript.decodeTranscriptMessage, hl] at h; cases h
  | null => cases h
  | bool b2 => cases h
  | num m2 => cases h
  | str s => cases h
  | arr xs => cases h

theorem userEntry_covers (fs : List (String × Json)) (u : ClaudeTranscript.UserEntry)
    (h : ClaudeTranscript.decodeUserEntry fs = .ok u)
    (hnd : noDupKeysFields fs = true) :
    shapePreservedFields true (ClaudeTranscript.serializeUserEntryFields u) fs = true := by
  simp only [ClaudeTranscript.decodeUserEntry, bind, Except.bind] at h
  cases h1 : reqF fs "uuid" dString with
  | error e => rw [h1] at h; cases h
  | ok uu =>
  rw [h1] at h
  cases h2 : reqF fs "timestamp" dString with
  | error e => rw [h2] at h; cases h
  | ok ts =>
  rw [h2] at h
  cases h3 : reqF fs "message" ClaudeTranscript.decodeTranscriptMessage with
  | error e => rw [h3] at h; cases h
  | ok ms =>
  rw [h3] at h
  cases h4 : reqF fs "cwd" dString with
  | error e => rw [h4] at h; cases h
  | ok cw =>
  rw [h4] at h
  cases h5 : reqF fs "sessionId" dString with
  | error e => rw [h5] at h; cases h
  | ok si =>
  rw [h5] at h
  cases h6 : reqF fs "version" dString with
  | error e => rw [h6] at h; cases h
  | ok ve =>
  rw [h6] at h
  cases h7 : reqF fs "userType" dString with
  | error e => rw [h7] at h; cases h
  | ok ut =>
  rw [h7] at h
  cases h8 : reqF fs "isSidechain" dBool with
  | error e => rw [h8] at h; cases h
  | ok sc =>
  rw [h8] at h
  cases h9 : optF fs "parentUuid" dString with
  | error e => rw [h9] at h; cases h
  | ok pu =>
  rw [h9] at h
  cases h10 : optF fs "toolUseResult" dValue with
  | error e => rw [h10] at h; cases h
  | ok tr =>
  rw [h10] at h
  cases h
  simp only [ClaudeTranscript.serializeUserEntryFields]
  exact spf_append_split
    (spf_cons_req_str h1 (spf_cons_req_str h2 (spf_cons_req_nested h3 hnd
      (fun v hv hdv => message_covers v ms hdv hv)
      (spf_cons_req_str h4 (spf_cons_req_str h5 (spf_cons_req_str h6
        (spf_cons_req_str h7 (spf_cons_req_bool h8
          (spf_cons_opt_noskip_str h9 (spf_nil fs))))))))))
    (spf_optPair_value h10 hnd)

theorem assistantEntry_covers (fs : List (String × Json))
    (a : ClaudeTranscript.AssistantEntry)
    (h : ClaudeTranscript.decodeAssistantEntry fs = .ok a)
    (hnd : noDupKeysFields fs = true) :
    shapePreservedFields true (ClaudeTranscript.serializeAssistantEntryFields a) fs
      = true := by
  simp only [ClaudeTranscript.decodeAssistantEntry, bind, Except.bind] at h
  cases h1 : reqF fs "uuid" dString with
  | error e => rw [h1] at h; cases h
  | ok uu =>
  rw [h1] at h
  cases h2 : reqF fs "timestamp" dString with
  | error e => rw [h2] at h; cases h
  | ok ts =>
  rw [h2] at h
  cases h3 : reqF fs "message" ClaudeTranscript.decodeTranscriptMessage with
  | error e => rw [h3] at h; cases h
  | ok ms =>
  rw [h3] at h
  cases h4 : reqF fs "cwd" dString with
  | error e => rw [h4] at h; cases h
  | ok cw =>
  rw [h4] at h
  cases h5 : reqF fs "sessionId" dString with
  | error e => rw [h5] at h; cases h
  | ok si =>
  rw [h5] at h
  cases h6 : reqF fs "version" dString with
  | error e => rw [h6] at h; cases h
  | ok ve =>
  rw [h6] at h
  cases h7 : reqF fs "userType" dString with
  | error e => rw [h7] at h; cases h
  | ok ut =>
  rw [h7] at h
  cases h8 : reqF fs "isSidechain" dBool with
  | error e => rw [h8] at h; cases h
  | ok sc =>
  rw [h8] at h
  cases h9 : reqF fs "parentUuid" dString with
  | error e => rw [h9] at h; cases h
  | ok pu =>
  rw [h9] at h
  cases h10 : optF fs "requestId" dString with
  | error e => rw [h10] at h; cases h
  | ok ri =>
  rw [h10] at h
  cases h11 : optF fs "isApiErrorMessage" dBool with
  | error e => rw [h11] at h; cases h
  | ok ae =>
  rw [h11] at h
  cases h
  simp only [ClaudeTranscript.serializeAssistantEntryFields]
  exact spf_append_split (spf_append_split
    (spf_cons_req_str h1 (spf_cons_req_str h2 (spf_cons_req_nested h3 hnd
      (fun v hv hdv => message_covers v ms hdv hv)
      (spf_cons_req_str h4 (spf_cons_req_str h5 (spf_cons_req_str h6
        (spf_cons_req_str h7 (spf_cons_req_bool h8
          (spf_cons_req_str h9 (spf_nil fs))))))))))
    (spf_optPair_str h10))
    (spf_optPair_bool h11)

theorem summaryEntry_covers (fs : List (String × Json))
    (s : ClaudeTranscript.SummaryEntry)
    (h : ClaudeTranscript.decodeSummaryEntry fs = .ok s)
    (hnd : noDupKeysFields fs = true) :
    shapePreservedFields true (ClaudeTranscript.serializeSummaryEntryFields s) fs
      = true := by
  simp only [ClaudeTranscript.decodeSummaryEntry, bind, Except.bind] at h
  cases h1 : reqF fs "summary" dString with
  | error e => rw [h1] at h; cases h
  | ok su =>
  rw [h1] at h
  cases h2 : reqF fs "leafUuid" dString with
  | error e => rw [h2] at h; cases h
  | ok lu =>
  rw [h2] at h
  cases h
  simp only [ClaudeTranscript.serializeSummaryEntryFields]
  exact spf_cons_req_str h1 (spf_cons_req_str h2 (spf_nil fs))

theorem systemEntry_covers (fs : List (String × Json))
    (s : ClaudeTranscript.SystemEntry)
    (h : ClaudeTranscript.decodeSystemEntry fs = .ok s)
    (hnd : noDupKeysFields fs = true) :
    shapePreservedFields true (ClaudeTranscript.serializeSystemEntryFields s) fs
      = true := by
  simp only [ClaudeTranscript.decodeSystemEntry, bind, Except.bind] at h
  cases h1 : reqF fs "uuid" dString with
  | error e => rw [h1] at h; cases h
  | ok uu =>
  rw [h1] at h
  cases h2 : reqF fs "timestamp" dString with
  | error e => rw [h2] at h; cases h
  | ok ts =>
  rw [h2] at h
  cases h3 : reqF fs "content" dString with
  | error e => rw [h3] at h; cases h
  | ok ct =>
  rw [h3] at h
  cases h4 : reqF fs "cwd" dString with
  | error e => rw [h4] at h; cases h
  | ok cw =>
  rw [h4] at h
  cases h5 : reqF fs "sessionId" dString with
  | error e => rw [h5] at h; cases h
  | ok si =>
  rw [h5] at h
  cases h6 : reqF fs "version" dString with
  | error e => rw [h6] at h; cases h
  | ok ve =>
  rw [h6] at h
  cases h7 : reqF fs "userType" dString with
  | error e => rw [h7] at h; cases h
  | ok ut =>
  rw [h7] at h
  cases h8 : reqF fs "isSidechain" dBool with
  | error e => rw [h8] at h; cases h
  | ok sc =>
  rw [h8] at h
  cases h9 : reqF fs "parentUuid" dString with
  | error e => rw [h9] at h; cases h
  | ok pu =>
  rw [h9] at h
  cases h10 : reqF fs "isMeta" dBool with
  | error e => rw [h10] at h; cases h
  | ok im =>
  rw [h10] at h
  cases h11 : optF fs "level" dString with
  | error e => rw [h11] at h; cases h
  | ok lv =>
  rw [h11] at h
  cases h12 : optF fs "toolUseID" dString with
  | error e => rw [h12] at h; cases h
  | ok ti =>
  rw [h12] at h
  cases h
  simp only [ClaudeTranscript.serializeSystemEntryFields]
  exact spf_append_split (spf_append_split
    (spf_cons_req_str h1 (spf_cons_req_str h2 (spf_cons_req_str h3
      (spf_cons_req_str h4 (spf_cons_req_str h5 (spf_cons_req_str h6
        (spf_cons_req_str h7 (spf_cons_req_bool h8 (spf_cons_req_str h9
          (spf_cons_req_bool h10 (spf_nil fs)))))))))))
    (spf_optPair_str h11))
    (spf_optPair_str h12)

/-- C4 (amended): for every JSON value that decodes to a
`TranscriptEntry` and whose objects are free of duplicate keys,
re-serializing the entry yields the same JSON shape it was parsed from,
modulo field order, loss of unmodeled or explicitly-null wire fields,
and materialization of absent always-serialized optional fields
(`parentUuid` on user entries, `stop_reason`/`stop_sequence` inside
assistant messages) as explicit `null`s; every field the serialization
emits carries the value found in the raw JSON. -/
theorem round_trip_preserves_modeled_fields (j : Json)
    (e : ClaudeTranscript.TranscriptEntry)
    (h : ClaudeTranscript.decodeTranscriptEntry j = .ok e)
    (hnd : noDupKeys j = true) :
    shapePreserved true (ClaudeTranscript.serializeTranscriptEntry e) j = true := by
  cases j with
  | obj fs =>
    simp only [noDupKeys, Bool.and_eq_true] at hnd
    cases hl : jLookup fs "type" with
    | none => simp only [ClaudeTranscript.decodeTranscriptEntry, hl] at h; cases h
    | some tv =>
    cases tv with
    | str t =>
      simp only [ClaudeTranscript.decodeTranscriptEntry, hl] at h
      by_cases ht1 : t = "user"
      · rw [if_pos ht1] at h
        rw [ht1] at hl
        cases hd : ClaudeTranscript.decodeUserEntry fs with
        | error e2 => rw [hd] at h; cases h
        | ok u =>
        rw [hd] at h
        simp only [Except.map] at h
        cases h
        simp only [ClaudeTranscript.serializeTranscriptEntry, shapePreserved]
        exact spf_cons_tag hl (userEntry_covers fs u hd hnd.2)
      · rw [if_neg ht1] at h
        by_cases ht2 : t = "assistant"
        · rw [if_pos ht2] at h
          rw [ht2] at hl
          cases hd : ClaudeTranscript.decodeAssistantEntry fs with
          | error e2 => rw [hd] at h; cases h
          | ok a =>
          rw [hd] at h
          simp only [Except.map] at h
          cases h
          simp only [ClaudeTranscript.serializeTranscriptEntry, shapePreserved]
          exact spf_cons_tag hl (assistantEntry_covers fs a hd hnd.2)
        · rw [if_neg ht2] at h
          by_cases ht3 : t = "summary"
          · rw [if_pos ht3] at h
            rw [ht3] at hl
            cases hd : ClaudeTranscript.decodeSummaryEntry fs with
            | error e2 => rw [hd] at h; cases h
            | ok s =>
            rw [hd] at h
            simp only [Except.map] at h
            cases h
            simp only [ClaudeTranscript.serializeTranscriptEntry, shapePreserved]
            exact spf_cons_tag hl (summaryEntry_covers fs s hd hnd.2)
          · rw [if_neg ht3] at h
            by_cases ht4 : t = "system"
            · rw [if_pos ht4] at h
              rw [ht4] at hl
              cases hd : ClaudeTranscript.decodeSystemEntry fs with
              | error e2 => rw [hd] at h; cases h
              | ok s =>
              rw [hd] at h
              simp only [Except.map] at h
              cases h
              simp only [ClaudeTranscript.serializeTranscriptEntry, shapePreserved]
              exact spf_cons_tag hl (systemEntry_covers fs s hd hnd.2)
            · rw [if_neg ht4] at h
              cases h
    | null => simp only [ClaudeTranscript.decodeTranscriptEntry, hl] at h; cases h
    | bool b2 => simp only [ClaudeTranscript.decodeTranscriptEntry, hl] at h; cases h
    | num m => simp only [ClaudeTranscript.decodeTranscriptEntry, hl] at h; cases h
    | arr xs => simp only [ClaudeTranscript.decodeTranscriptEntry, hl] at h; cases h
    | obj fs2 => simp only [ClaudeTranscript.decodeTranscriptEntry, hl] at h; cases h
  | null => cases h
  | bool b2 => cases h
  | num m => cases h
  | str s => cases h
  | arr xs => cases h

theorem round_trip_preserves_modeled_fields_witness :
    shapePreserved true
      (ClaudeTranscript.serializeTranscriptEntry userEntryNoParentUuid)
      userRawNoParentUuid = true :=
  round_trip_preserves_modeled_fields userRawNoParentUuid userEntryNoParentUuid
    (by decide) (by decide)

/-- C4 (counterexample to the claim as stated): a raw user entry without
a `parentUuid` key decodes successfully, but its re-serialization emits
`"parentUuid": null` — a field that was not in the raw JSON — so the
shape is not preserved up to loss alone. -/
theorem round_trip_materializes_parent_uuid :
    ClaudeTranscript.decodeTranscriptEntry userRawNoParentUuid
      = .ok userEntryNoParentUuid
    ∧ shapePreserved false
        (ClaudeTranscript.serializeTranscriptEntry userEntryNoParentUuid)
        userRawNoParentUuid = false := by
  refine ⟨by decide, by decide⟩
